import Mathlib

/-!
# Outage schedule resolution for the Mykolaiv Oblenergo client

A shallow embedding of `models.go` and `client.go` (package `oblenergo`).

* Go `int` values are `Int`; none of the arithmetic performed on them can overflow
  (the only computation is `hour*2 + 1 (+1)` with `hour` in `0..23`, and the loop
  counter of `GetRemainingTime` stops at 48).  The values `%d` scans are kept within
  the int64 range, as `strconv.ParseInt` does; `time.Date` is modelled on unbounded
  integers, so hours and minutes for which Go's 64-bit arithmetic wraps are outside
  the model: the theorems that reach `Date` bound the hour and minute read from the
  slot text.
* A `time.Time` is an absolute instant, modelled as the number of nanoseconds
  since the Unix epoch.  `Before`, `After` and `Equal` compare instants.
* A `*time.Location` is the function giving the UTC offset (in seconds) in force
  at a Unix second, which is what `time.Time.In` followed by `Hour()`/`Minute()`
  consults.  `kyivLocation` is a parameter of every definition that uses it.
* A nil-able pointer result `*T` is an `Option T`.
* The HTTP transport is a record of the decoded responses (or errors) of the
  endpoints; `time.Now()` is an explicit argument.
* A `time.Duration` is a number of nanoseconds; `Time.Sub` saturates at the ends
  of the int64 range, as Go does.
* `fmt.Sscanf` with the format `%d:%d:%d` and `time.Date` are library code: they
  are modelled after the Go sources (`fmt/scan.go`, `time/time.go`).  The calendar
  date `Year(), Month(), Day()` of a local time enters `time.Date` only through the
  number of the local day (days since 1970-01-01 on the local clock), since
  `time.Date` turns that date back into the same day number.
-/

namespace Oblenergo

/-! ## models.go -/

/-- An absolute instant (`time.Time`): nanoseconds since the Unix epoch. -/
abbrev Time := Int

/-- Go `now.Before(u)`: the instant is strictly earlier. -/
def Time.Before (t u : Time) : Bool := decide (t < u)

/-- Go `t.After(u)`: the instant is strictly later. -/
def Time.After (t u : Time) : Bool := decide (u < t)

/-- Go `t.Equal(u)`: the same instant. -/
def Time.Equal (t u : Time) : Bool := decide (t = u)

/-- A `*time.Location`: the offset east of UTC, in seconds, at a Unix second. -/
structure Location where
  offset : Int → Int

/-- `OutageQueueType`. -/
abbrev OutageQueueType := Int

def QueueTypeCity : OutageQueueType := 1
def QueueTypeDistrict : OutageQueueType := 2
def QueueTypeSub : OutageQueueType := 3

/-- `OutageQueue` represents a single outage queue entry. -/
structure OutageQueue where
  ID : Int
  Name : String
  TypeID : Int
  Enabled : Int
  CreatedAt : Option Time
  UpdatedAt : Option Time
  Deleted : Int
  deriving DecidableEq, Repr

/-- `TimeSeries` represents a 30-minute time slot in the schedule. -/
structure TimeSeries where
  ID : Int
  Start : String
  End : String
  CreatedAt : Option Time
  UpdatedAt : Option Time
  deriving DecidableEq, Repr

/-- `OutageType` is a Go string type. -/
abbrev OutageType := String

def OutageOff : OutageType := "OFF"
def OutageProbablyOff : OutageType := "PROBABLY_OFF"
def OutageSureOff : OutageType := "SURE_OFF"

/-- `ScheduleEntry` represents a single outage event within an active schedule
(the Go field `Type` is written `Type_`, `Type` being reserved). -/
structure ScheduleEntry where
  ID : Int
  OutageScheduleID : Int
  TimeSeriesID : Int
  OutageQueueID : Int
  CreatedAt : Option Time
  UpdatedAt : Option Time
  Type_ : OutageType
  deriving DecidableEq, Repr

/-- `ActiveSchedule` represents a full day outage schedule with all its entries. -/
structure ActiveSchedule where
  ID : Int
  From : Time
  To : Time
  Series : List ScheduleEntry
  deriving DecidableEq, Repr

/-- `Status` is a Go string type. -/
abbrev Status := String

def StatusOn : Status := "ON"
def StatusOff : Status := "OFF"

/-- `CurrentInfo` holds the current power state for a queue. -/
structure CurrentInfo where
  Queue : OutageQueue
  Status : Status
  Probably : Bool
  TimeSlot : TimeSeries
  deriving DecidableEq, Repr

/-- `DailySlot` holds status for a single 30-min slot. -/
structure DailySlot where
  TimeSlot : TimeSeries
  Status : Status
  Probably : Bool
  deriving DecidableEq, Repr

/-- `DailyInfo` holds the full day schedule for a queue. -/
structure DailyInfo where
  Queue : OutageQueue
  Slots : List DailySlot
  deriving DecidableEq, Repr

/-- A `time.Duration`: nanoseconds. -/
abbrev Duration := Int

/-- `RemainingTime` holds the time remaining until power goes off. -/
structure RemainingTime where
  Queue : OutageQueue
  Status : Status
  Probably : Bool
  Remaining : Duration
  ShutoffAt : Option Time
  ShutoffSlot : Option TimeSeries
  deriving DecidableEq, Repr

/-! ## client.go: schedule selection -/

/-- The loop of `activeScheduleForNow`: the first schedule, in slice order, with
`!now.Before(From) && now.Before(To)`; the fallback is the element at `len-1`
when `len > 0`, and nil otherwise. -/
def activeScheduleForNow (schedules : List ActiveSchedule) (now : Time) :
    Option ActiveSchedule :=
  match schedules.find? (fun s => !Time.Before now s.From && Time.Before now s.To) with
  | some s => some s
  | none =>
    if schedules.length > 0 then schedules[schedules.length - 1]? else none

/-- The guard `current != nil && schedules[i].ID == current.ID` of `scheduleForTomorrow`. -/
def isCurrent (current : Option ActiveSchedule) (s : ActiveSchedule) : Bool :=
  match current with
  | some c => decide (s.ID = c.ID)
  | none => false

/-- The loop of `scheduleForTomorrow`: skip the schedules carrying the id of
`current`, return the first remaining one with `From.After(now) || From.Equal(now)`;
the fallback is the element at `len-1` when `len > 0`, and nil otherwise. -/
def scheduleForTomorrow (schedules : List ActiveSchedule) (now : Time) :
    Option ActiveSchedule :=
  let current := activeScheduleForNow schedules now
  match schedules.find?
      (fun s => !isCurrent current s && (Time.After s.From now || Time.Equal s.From now)) with
  | some s => some s
  | none =>
    if schedules.length > 0 then schedules[schedules.length - 1]? else none

/-! ## client.go: civil-time slotting -/

/-- Unix seconds of an instant (the nanoseconds are dropped, rounding down). -/
def Time.unixSec (t : Time) : Int := t / 1000000000

/-- Seconds of the local clock reading of `t.In(loc)`, counted from an instant that is a
local midnight: Unix seconds plus the zone offset in force (Go `Time.abs`, up to a
multiple of 86400). -/
def Time.localSec (loc : Location) (t : Time) : Int :=
  t.unixSec + loc.offset t.unixSec

/-- Go `t.In(loc).Hour()`: `abs % secondsPerDay / secondsPerHour`. -/
def Time.Hour (loc : Location) (t : Time) : Int :=
  (Time.localSec loc t % 86400) / 3600

/-- Go `t.In(loc).Minute()`: `abs % secondsPerHour / secondsPerMinute`. -/
def Time.Minute (loc : Location) (t : Time) : Int :=
  (Time.localSec loc t % 3600) / 60

/-- `currentTimeSeriesID` returns the time series ID (1-48) for the current Kyiv time. -/
def currentTimeSeriesID (kyivLocation : Location) (now : Time) : Int :=
  let slot := Time.Hour kyivLocation now * 2 + 1
  if Time.Minute kyivLocation now ≥ 30 then slot + 1 else slot

/-- Go `t.In(loc).Second()`: `abs % secondsPerMinute`. -/
def Time.Second (loc : Location) (t : Time) : Int :=
  Time.localSec loc t % 60

/-- The number of the local day of `t.In(loc)`: days since 1970-01-01 on the local clock.
`Year()`, `Month()` and `Day()` are the calendar date of this day. -/
def Time.localDay (loc : Location) (t : Time) : Int :=
  Time.localSec loc t / 86400

/-- The smallest `time.Duration`. -/
def minDuration : Duration := -9223372036854775808

/-- The largest `time.Duration`. -/
def maxDuration : Duration := 9223372036854775807

/-- Go `t.Sub(u)`: the difference `t - u`, or the smallest or largest Duration when the
difference does not fit one. -/
def Time.Sub (t u : Time) : Duration :=
  if minDuration ≤ t - u ∧ t - u ≤ maxDuration then t - u
  else if t < u then minDuration else maxDuration

/-- Go `time.Date(y, mo, d, hour, min, 0, 0, loc)` where `y, mo, d` is the calendar date of
the local day number `day`, for hours and minutes within the 32-bit range (where none of
Go's 64-bit steps wraps). The local clock reading is first taken as if it were UTC
(`unix`); the zone offset found there gives a candidate `utc`, and the offset in force at
`utc` is the one subtracted (when `utc` lies in the zone period found at `unix` the two
offsets are the same; otherwise Go looks `utc` up again). Hours and minutes outside their
usual ranges carry over, as in Go. -/
def Date (loc : Location) (day hour min : Int) : Time :=
  let unix := day * 86400 + hour * 3600 + min * 60
  let utc := unix - loc.offset unix
  (unix - loc.offset utc) * 1000000000

/-- Go `fmt.isSpace`. -/
def isSpace (c : Char) : Bool :=
  let r := c.toNat
  (0x09 ≤ r && r ≤ 0x0d) || r == 0x20 || r == 0x85 || r == 0xa0 || r == 0x1680 ||
    (0x2000 ≤ r && r ≤ 0x200a) || r == 0x2028 || r == 0x2029 || r == 0x202f ||
    r == 0x205f || r == 0x3000

/-- Go `(*ss).SkipSpace` for `Sscanf` (newlines are not spaces there): the input that is
left, or `none` for the error `unexpected newline`. -/
def skipSpace : List Char → Option (List Char)
  | [] => some []
  | c :: cs =>
    if c = Char.ofNat 10 then none
    else if isSpace c then skipSpace cs
    else some (c :: cs)

/-- The digits `%d` accepts while scanning a number (`decimalDigits`, "0123456789"; the
underscore is accepted by `%v` only). -/
def isDecimalDigit (c : Char) : Bool :=
  '0' ≤ c && c ≤ '9'

/-- Go `strconv.ParseInt(tok, 10, 64)` on a run of decimal digits with its sign: `none`
when the value does not fit an int64. -/
def parseInt (negative : Bool) (digits : List Char) : Option Int :=
  let n : Nat := digits.foldl (fun acc c => acc * 10 + (c.toNat - 48)) 0
  let v : Int := if negative then -(n : Int) else (n : Int)
  if -9223372036854775808 ≤ v ∧ v ≤ 9223372036854775807 then some v else none

/-- The verb `%d` of `Sscanf` (`SkipSpace`, then `scanInt`): skip spaces, fail at the end of
the input, accept one sign, accept at least one digit and then all the digits that follow
(the scan stops before the first other character, which stays in the input), and parse
them. The result is the value and the input that is left, or `none` for an error. -/
def scanInt (input : List Char) : Option (Int × List Char) :=
  match skipSpace input with
  | none => none
  | some [] => none
  | some (c :: cs) =>
    let negative := c == '-'
    let body := if c == '+' || c == '-' then cs else c :: cs
    let digits := body.takeWhile isDecimalDigit
    if digits.isEmpty then none
    else
      match parseInt negative digits with
      | none => none
      | some v => some (v, body.dropWhile isDecimalDigit)

/-- `parseSlotTime` parses a time string like "08:30:00" into hour and minute:
`fmt.Sscanf(s, "%d:%d:%d", &h, &m, &sec)` with its error ignored, so a variable that was
not reached by the scan keeps its zero value; the seconds are scanned but not returned. -/
def parseSlotTime (s : String) : Int × Int :=
  match scanInt s.toList with
  | none => (0, 0)
  | some (h, rest) =>
    match rest with
    | ':' :: rest' =>
      match scanInt rest' with
      | none => (h, 0)
      | some (m, _) => (h, m)
    | _ => (h, 0)

/-- `slotToKyivTime` converts a time series slot's start time to a time.Time on today in
Kyiv. -/
def slotToKyivTime (kyivLocation : Location) (slot : TimeSeries) (now : Time) : Time :=
  let hm := parseSlotTime slot.Start
  Date kyivLocation (Time.localDay kyivLocation now) hm.1 hm.2

/-! ## client.go: outage classification -/

/-- `entryStatus` converts a schedule entry type to Status + probably flag. -/
def entryStatus (t : OutageType) : Status × Bool :=
  if t = OutageProbablyOff then (StatusOff, true)
  else if t = OutageOff ∨ t = OutageSureOff then (StatusOff, false)
  else (StatusOff, false)

/-! ## client.go: transport and queue resolution -/

/-- The errors a query returns: a failure of `Client.get` (request, status or decode
error), or the `queue %q not found` error of `findQueue`, which carries the name. -/
inductive Error where
  | transport (msg : String)
  | queueNotFound (name : String)
  deriving DecidableEq, Repr

/-- What the remote service answers to a `Client`: the decoded body, or the error
of `Client.get`, for each of the three endpoints. -/
structure Client where
  outageQueueByType : OutageQueueType → Except Error (List OutageQueue)
  scheduleTimeSeries : Except Error (List TimeSeries)
  scheduleActive : Except Error (List ActiveSchedule)

/-- `GetOutageQueues` returns outage queues for the given type. -/
def Client.GetOutageQueues (c : Client) (queueType : OutageQueueType) :
    Except Error (List OutageQueue) :=
  c.outageQueueByType queueType

/-- `GetTimeSeries` returns all 48 half-hour time slots. -/
def Client.GetTimeSeries (c : Client) : Except Error (List TimeSeries) :=
  c.scheduleTimeSeries

/-- `GetActiveSchedule` returns the currently active outage schedule. -/
def Client.GetActiveSchedule (c : Client) : Except Error (List ActiveSchedule) :=
  c.scheduleActive

/-- The outer loop of `findQueue` over the remaining queue types. -/
def Client.findQueueIn (c : Client) (name : String) :
    List OutageQueueType → Except Error OutageQueue
  | [] => .error (.queueNotFound name)
  | qt :: rest =>
    match c.GetOutageQueues qt with
    | .error err => .error err
    | .ok queues =>
      match queues.find? (fun q => decide (q.Name = name)) with
      | some q => .ok q
      | none => Client.findQueueIn c name rest

/-- `findQueue` searches all queue types for a queue with the given name. -/
def Client.findQueue (c : Client) (name : String) : Except Error OutageQueue :=
  c.findQueueIn name [QueueTypeCity, QueueTypeDistrict, QueueTypeSub]

/-! ## client.go: the queries -/

/-- The zero value of `TimeSeries` (`var currentSlot TimeSeries`). -/
def TimeSeries.zero : TimeSeries :=
  { ID := 0, Start := "", End := "", CreatedAt := none, UpdatedAt := none }

/-- `GetCurrentInfo` returns the current power state for a queue by name. -/
def Client.GetCurrentInfo (kyivLocation : Location) (c : Client) (now : Time)
    (name : String) : Except Error CurrentInfo :=
  match c.findQueue name with
  | .error err => .error err
  | .ok queue =>
    match c.GetTimeSeries with
    | .error err => .error err
    | .ok timeSeries =>
      match c.GetActiveSchedule with
      | .error err => .error err
      | .ok schedules =>
        let slotID := currentTimeSeriesID kyivLocation now
        let currentSlot :=
          match timeSeries.find? (fun ts => decide (ts.ID = slotID)) with
          | some ts => ts
          | none => TimeSeries.zero
        let info : CurrentInfo :=
          { Queue := queue, Status := StatusOn, Probably := false, TimeSlot := currentSlot }
        match activeScheduleForNow schedules now with
        | none => .ok info
        | some sched =>
          match sched.Series.find? (fun entry =>
              decide (entry.OutageQueueID = queue.ID) && decide (entry.TimeSeriesID = slotID)) with
          | some entry =>
            .ok { info with
              Status := (entryStatus entry.Type_).1, Probably := (entryStatus entry.Type_).2 }
          | none => .ok info

/-- A Go `map[int]ScheduleEntry`, as its lookup function (`entry, ok := m[k]`). -/
abbrev EntryMap := Int → Option ScheduleEntry

/-- The empty map `map[int]ScheduleEntry{}`. -/
def EntryMap.empty : EntryMap := fun _ => none

/-- The assignment `m[k] = v`: a later assignment to a key replaces the earlier one. -/
def EntryMap.set (m : EntryMap) (k : Int) (v : ScheduleEntry) : EntryMap :=
  fun k' => if k' = k then some v else m k'

/-- The block `entryMap := map[int]ScheduleEntry{}; if sched != nil { for _, entry :=
range sched.Series { if entry.OutageQueueID == queue.ID { entryMap[entry.TimeSeriesID] =
entry } } }` that `GetDailyInfo`, `GetRemainingTime` and `GetTomorrowDailyInfo` share. -/
def buildEntryMap (sched : Option ActiveSchedule) (queue : OutageQueue) : EntryMap :=
  match sched with
  | none => EntryMap.empty
  | some s =>
    s.Series.foldl
      (fun entryMap entry =>
        if entry.OutageQueueID = queue.ID then entryMap.set entry.TimeSeriesID entry
        else entryMap)
      EntryMap.empty

/-- The loop `for _, ts := range timeSeries { ... daily.Slots = append(daily.Slots, slot) }`
of `GetDailyInfo` and `GetTomorrowDailyInfo`: one row per element, in order. -/
def dailySlots (entryMap : EntryMap) (timeSeries : List TimeSeries) : List DailySlot :=
  timeSeries.map fun ts =>
    match entryMap ts.ID with
    | some entry =>
      { TimeSlot := ts, Status := (entryStatus entry.Type_).1,
        Probably := (entryStatus entry.Type_).2 }
    | none => { TimeSlot := ts, Status := StatusOn, Probably := false }

/-- `GetDailyInfo` returns the status for all 48 time slots for a queue by name. -/
def Client.GetDailyInfo (c : Client) (now : Time) (name : String) : Except Error DailyInfo :=
  match c.findQueue name with
  | .error err => .error err
  | .ok queue =>
    match c.GetTimeSeries with
    | .error err => .error err
    | .ok timeSeries =>
      match c.GetActiveSchedule with
      | .error err => .error err
      | .ok schedules =>
        let sched := activeScheduleForNow schedules now
        let entryMap := buildEntryMap sched queue
        .ok { Queue := queue, Slots := dailySlots entryMap timeSeries }

/-- A Go `map[int]TimeSeries`, as its lookup function. -/
abbrev TimeSeriesMap := Int → Option TimeSeries

/-- The assignment `tsMap[k] = v`. -/
def TimeSeriesMap.set (m : TimeSeriesMap) (k : Int) (v : TimeSeries) : TimeSeriesMap :=
  fun k' => if k' = k then some v else m k'

/-- The block `tsMap := map[int]TimeSeries{}; for _, ts := range timeSeries { tsMap[ts.ID] =
ts }` of `GetRemainingTime`. -/
def buildTsMap (timeSeries : List TimeSeries) : TimeSeriesMap :=
  timeSeries.foldl (fun tsMap ts => tsMap.set ts.ID ts) (fun _ => none)

/-- The loop `for i := currentSlotID + 1; i <= 48; i++ { if _, ok := entryMap[i]; ok { ...
return } }` of `GetRemainingTime`: the first `i` of `currentSlotID + 1, ..., 48` that is a
key of the map, if there is one. -/
def nextOffSlotID (entryMap : EntryMap) (currentSlotID : Int) : Option Int :=
  ((List.range (48 - currentSlotID).toNat).map (fun (k : Nat) => currentSlotID + 1 + (k : Int))).find?
    (fun i => (entryMap i).isSome)

/-- `GetRemainingTime` returns how long until power goes off for a queue.
If power is already off, Remaining is 0. -/
def Client.GetRemainingTime (kyivLocation : Location) (c : Client) (now : Time)
    (name : String) : Except Error RemainingTime :=
  match c.findQueue name with
  | .error err => .error err
  | .ok queue =>
    match c.GetTimeSeries with
    | .error err => .error err
    | .ok timeSeries =>
      match c.GetActiveSchedule with
      | .error err => .error err
      | .ok schedules =>
        let currentSlotID := currentTimeSeriesID kyivLocation now
        let sched := activeScheduleForNow schedules now
        let entryMap := buildEntryMap sched queue
        let result : RemainingTime :=
          { Queue := queue, Status := StatusOn, Probably := false, Remaining := 0,
            ShutoffAt := none, ShutoffSlot := none }
        match entryMap currentSlotID with
        | some entry =>
          .ok { result with
            Status := (entryStatus entry.Type_).1, Probably := (entryStatus entry.Type_).2,
            Remaining := 0 }
        | none =>
          let tsMap := buildTsMap timeSeries
          match nextOffSlotID entryMap currentSlotID with
          | some i =>
            let slot :=
              match tsMap i with
              | some ts => ts
              | none => TimeSeries.zero
            let shutoffTime := slotToKyivTime kyivLocation slot now
            .ok { result with
              Remaining := Time.Sub shutoffTime now,
              ShutoffAt := some shutoffTime, ShutoffSlot := some slot }
          | none => .ok { result with Remaining := 0 }

/-- `GetTomorrowDailyInfo` returns the status for all 48 time slots for tomorrow. -/
def Client.GetTomorrowDailyInfo (c : Client) (now : Time) (name : String) :
    Except Error DailyInfo :=
  match c.findQueue name with
  | .error err => .error err
  | .ok queue =>
    match c.GetTimeSeries with
    | .error err => .error err
    | .ok timeSeries =>
      match c.GetActiveSchedule with
      | .error err => .error err
      | .ok schedules =>
        let sched := scheduleForTomorrow schedules now
        let entryMap := buildEntryMap sched queue
        .ok { Queue := queue, Slots := dailySlots entryMap timeSeries }

/-! ## Sample data: the standard slot grid and a one-event day -/

/-- Two decimal digits, zero-padded. -/
def pad2 (n : Nat) : String :=
  String.mk [Char.ofNat (48 + n / 10), Char.ofNat (48 + n % 10)]

/-- The text `HH:MM:00` of a time of day given in minutes after midnight. -/
def clockText (minutes : Nat) : String :=
  pad2 (minutes / 60) ++ ":" ++ pad2 (minutes % 60) ++ ":00"

/-- The slot with id `k + 1`: it starts `k * 30` minutes after local midnight. -/
def standardSlot (k : Nat) : TimeSeries :=
  { ID := (k : Int) + 1, Start := clockText (k * 30), End := clockText ((k + 1) * 30 % 1440),
    CreatedAt := none, UpdatedAt := none }

/-- The standard grid: 48 slots, ids 1..48 in ascending order. -/
def standardGrid : List TimeSeries := (List.range 48).map standardSlot

/-- A location whose offset is two hours east of UTC throughout (Kyiv in winter). -/
def kyivWinter : Location := { offset := fun _ => 7200 }

/-- Local midnight of 15 January 2024 at two hours east of UTC. -/
def sampleMidnight : Time := 1705269600 * 1000000000

/-- The instant `h:m:00` local time on the sample day. -/
def sampleClock (h m : Int) : Time := sampleMidnight + (h * 3600 + m * 60) * 1000000000

/-- The queue named "6.1". -/
def sampleQueue : OutageQueue :=
  { ID := 11, Name := "6.1", TypeID := 1, Enabled := 1, CreatedAt := none, UpdatedAt := none,
    Deleted := 0 }

/-- An event of schedule 501 for queue 11. -/
def sampleEntry (id slot : Int) (t : OutageType) : ScheduleEntry :=
  { ID := id, OutageScheduleID := 501, TimeSeriesID := slot, OutageQueueID := 11,
    CreatedAt := none, UpdatedAt := none, Type_ := t }

/-- A schedule valid for the whole sample day with one event: queue 11, slot 17, OFF. -/
def sampleSchedule : ActiveSchedule :=
  { ID := 501, From := sampleMidnight, To := sampleMidnight + 86400 * 1000000000,
    Series := [sampleEntry 9001 17 OutageOff] }

/-- A service publishing the queue "6.1" as a city queue, the standard grid and the
sample schedule. -/
def sampleClient : Client :=
  { outageQueueByType := fun qt => if qt = QueueTypeCity then .ok [sampleQueue] else .ok [],
    scheduleTimeSeries := .ok standardGrid,
    scheduleActive := .ok [sampleSchedule] }

/-- A schedule without events, given by id and validity interval. -/
def emptySchedule (id : Int) (start stop : Time) : ActiveSchedule :=
  { ID := id, From := start, To := stop, Series := [] }

/-- The standard grid without the slot of id 17. -/
def gridWithout17 : List TimeSeries := standardGrid.filter (fun ts => decide (ts.ID ≠ 17))

/-- The sample service, publishing a grid that lacks the slot of id 17. -/
def incompleteGridClient : Client :=
  { sampleClient with scheduleTimeSeries := .ok gridWithout17 }

/-- Europe/Kyiv in 2024: three hours east of UTC from 31 March 01:00 UTC to 27 October
01:00 UTC (summer time), two hours east otherwise. -/
def kyiv2024 : Location :=
  { offset := fun u => if 1711846800 ≤ u ∧ u < 1729990800 then 10800 else 7200 }

/-- Noon, local time, of 31 March 2024, the day the clocks go from 03:00 to 04:00. -/
def springForwardNoon : Time := 1711875600 * 1000000000

/-- A queue of the district catalog. -/
def districtQueue : OutageQueue :=
  { ID := 21, Name := "D-3", TypeID := 2, Enabled := 1, CreatedAt := none, UpdatedAt := none,
    Deleted := 0 }

/-- A queue of the sub catalog. -/
def subQueue : OutageQueue :=
  { ID := 31, Name := "S-7", TypeID := 3, Enabled := 1, CreatedAt := none, UpdatedAt := none,
    Deleted := 0 }

/-- A service with one queue in each of the three catalogs. -/
def catalogClient : Client :=
  { sampleClient with
    outageQueueByType := fun qt =>
      if qt = QueueTypeCity then .ok [sampleQueue]
      else if qt = QueueTypeDistrict then .ok [districtQueue]
      else .ok [subQueue] }

/-- The sample schedule with a second event for the same queue and slot 17, of another
category: first `OFF`, then `PROBABLY_OFF`. -/
def duplicateEventSchedule : ActiveSchedule :=
  { sampleSchedule with
    Series := [sampleEntry 9001 17 OutageOff, sampleEntry 9002 17 OutageProbablyOff] }

/-- The sample service, publishing the schedule with the two events for slot 17. -/
def duplicateEventClient : Client :=
  { sampleClient with scheduleActive := .ok [duplicateEventSchedule] }

/-- Noon, local time, of 27 October 2024, the day the clocks go back from 04:00 to 03:00. -/
def fallBackNoon : Time := 1730023200 * 1000000000

/-! ## Theorems -/

/-- The guard of `activeScheduleForNow` is the half-open interval test. -/
theorem inRange_iff (now : Time) (s : ActiveSchedule) :
    (!Time.Before now s.From && Time.Before now s.To) = true ↔ s.From ≤ now ∧ now < s.To := by
  simp [Time.Before]

/-- The test `From.After(now) || From.Equal(now)` is `now <= from`. -/
theorem fromReached_iff (now : Time) (s : ActiveSchedule) :
    (Time.After s.From now || Time.Equal s.From now) = true ↔ now ≤ s.From := by
  simp only [Time.After, Time.Equal, Bool.or_eq_true, decide_eq_true_eq]
  exact ⟨fun h => h.elim le_of_lt (fun e => le_of_eq e.symm),
    fun h => (lt_or_eq_of_le h).imp id Eq.symm⟩

/-- The fallback expression of both selectors yields the last element of a non-empty list. -/
theorem lastElem_of_ne_nil {α : Type} (l : List α) (h : l ≠ []) :
    ∃ init last, l = init ++ [last] ∧
      (if l.length > 0 then l[l.length - 1]? else none) = some last := by
  refine ⟨l.dropLast, l.getLast h, (List.dropLast_append_getLast h).symm, ?_⟩
  have hpos : 0 < l.length := List.length_pos.mpr h
  rw [if_pos hpos, ← List.getLast?_eq_getElem?, List.getLast?_eq_getLast _ h]

/-- Claim C1: when exactly one schedule of the list (the one at index `i`) satisfies
`from <= now < to`, `activeScheduleForNow` returns that schedule. The interval is
half-open: a schedule with `from = now` satisfies the condition, one with `to = now`
does not. -/
theorem activeScheduleForNow_unique (schedules : List ActiveSchedule) (now : Time) (i : Nat)
    (s : ActiveSchedule) (hi : schedules[i]? = some s) (hin : s.From ≤ now ∧ now < s.To)
    (huniq : ∀ (j : Nat) (t : ActiveSchedule),
      schedules[j]? = some t → t.From ≤ now ∧ now < t.To → j = i) :
    activeScheduleForNow schedules now = some s := by
  unfold activeScheduleForNow
  cases hfind : schedules.find? (fun s => !Time.Before now s.From && Time.Before now s.To) with
  | some t =>
    have hp := List.find?_some hfind
    have hmem := List.mem_of_find?_eq_some hfind
    obtain ⟨j, hj⟩ := List.mem_iff_getElem?.mp hmem
    have hji := huniq j t hj ((inRange_iff now t).mp hp)
    subst hji
    rw [hi] at hj
    simpa using hj.symm
  | none =>
    have hnone := List.find?_eq_none.mp hfind s (List.mem_iff_getElem?.mpr ⟨i, hi⟩)
    exact absurd ((inRange_iff now s).mpr hin) hnone

/-- Claim C1 at a concrete input: of three consecutive schedules, at `now = 100` only the
second (`from = now`) contains `now`; the first (`to = now`) does not. -/
theorem activeScheduleForNow_unique_witness :
    activeScheduleForNow
      [emptySchedule 1 0 100, emptySchedule 2 100 200, emptySchedule 3 200 300] 100
      = some (emptySchedule 2 100 200) :=
  activeScheduleForNow_unique _ 100 1 (emptySchedule 2 100 200) (by decide) (by decide)
    (by
      intro j t hj ht
      match j, hj with
      | 0, hj => simp [emptySchedule] at hj; subst hj; simp at ht
      | 1, _ => rfl
      | 2, hj => simp [emptySchedule] at hj; subst hj; simp at ht
      | (k + 3), hj => simp at hj)

/-- Claim C2: when no schedule of the list satisfies `from <= now < to`,
`activeScheduleForNow` returns the last element of a non-empty list, and no schedule
for the empty list. -/
theorem activeScheduleForNow_fallback (schedules : List ActiveSchedule) (now : Time)
    (hnone : ∀ s ∈ schedules, ¬ (s.From ≤ now ∧ now < s.To)) :
    (schedules ≠ [] →
      ∃ init last, schedules = init ++ [last] ∧ activeScheduleForNow schedules now = some last) ∧
    (schedules = [] → activeScheduleForNow schedules now = none) := by
  have hfind : schedules.find? (fun s => !Time.Before now s.From && Time.Before now s.To)
      = none := by
    apply List.find?_eq_none.mpr
    intro s hs hp
    exact hnone s hs ((inRange_iff now s).mp hp)
  constructor
  · intro hne
    obtain ⟨init, last, hsplit, hlast⟩ := lastElem_of_ne_nil schedules hne
    refine ⟨init, last, hsplit, ?_⟩
    unfold activeScheduleForNow
    rw [hfind]
    exact hlast
  · intro hnil
    subst hnil
    rfl

/-- Claim C2 at a concrete input: at `now = 200` neither of the two schedules contains
`now`, and the last one is returned. -/
theorem activeScheduleForNow_fallback_witness :
    (∃ init last, [emptySchedule 1 0 100, emptySchedule 2 100 200] = init ++ [last] ∧
      activeScheduleForNow [emptySchedule 1 0 100, emptySchedule 2 100 200] 200 = some last) :=
  (activeScheduleForNow_fallback [emptySchedule 1 0 100, emptySchedule 2 100 200] 200
    (by decide)).1 (by decide)

/-- The loop guard of `scheduleForTomorrow`, in words. -/
theorem tomorrowGuard_iff (current : Option ActiveSchedule) (now : Time) (s : ActiveSchedule) :
    (!isCurrent current s && (Time.After s.From now || Time.Equal s.From now)) = true ↔
      (∀ c, current = some c → s.ID ≠ c.ID) ∧ now ≤ s.From := by
  rw [Bool.and_eq_true, fromReached_iff]
  cases current with
  | none => simp [isCurrent]
  | some c => simp [isCurrent]

/-- The first element satisfying a test is what `find?` returns. -/
theorem find_first_of_split {α : Type} (p : α → Bool) (pre post : List α) (a : α)
    (ha : p a = true) (hpre : ∀ x ∈ pre, ¬ p x = true) :
    (pre ++ a :: post).find? p = some a := by
  rw [List.find?_append, List.find?_eq_none.mpr hpre]
  simp [List.find?_cons, ha]

/-- Claim C3 fails as stated: with yesterday's schedule (id 1, valid `[0,100)`) followed by
today's (id 2, valid `[100,200)`) and `now = 150`, the list holds two schedules, and both
`activeScheduleForNow` and `scheduleForTomorrow` return the schedule with id 2. -/
theorem scheduleForTomorrow_same_id_counterexample :
    1 < [emptySchedule 1 0 100, emptySchedule 2 100 200].length ∧
    (activeScheduleForNow [emptySchedule 1 0 100, emptySchedule 2 100 200] 150).map (·.ID)
      = some 2 ∧
    (scheduleForTomorrow [emptySchedule 1 0 100, emptySchedule 2 100 200] 150).map (·.ID)
      = some 2 := by
  decide

/-- Claim C3, amended: with `a` the schedule returned by `activeScheduleForNow`, whenever
the list holds a schedule whose id differs from the id of `a` and whose `from >= now`,
`scheduleForTomorrow` returns a schedule whose id differs from the id of `a`; when it
holds none, `scheduleForTomorrow` returns the last element of the list, whatever its id. -/
theorem scheduleForTomorrow_id_ne (schedules : List ActiveSchedule) (now : Time)
    (a : ActiveSchedule) (ha : activeScheduleForNow schedules now = some a) :
    ((∃ s ∈ schedules, s.ID ≠ a.ID ∧ now ≤ s.From) →
      ∃ t, scheduleForTomorrow schedules now = some t ∧ t.ID ≠ a.ID) ∧
    ((¬ ∃ s ∈ schedules, s.ID ≠ a.ID ∧ now ≤ s.From) →
      ∃ init last, schedules = init ++ [last] ∧
        scheduleForTomorrow schedules now = some last) := by
  constructor
  · rintro ⟨s, hs, hid, hfrom⟩
    unfold scheduleForTomorrow
    simp only [ha]
    cases hfind : schedules.find? (fun s =>
        !isCurrent (some a) s && (Time.After s.From now || Time.Equal s.From now)) with
    | some t =>
      have hpt := List.find?_some hfind
      have hp := (tomorrowGuard_iff (some a) now t).mp hpt
      exact ⟨t, rfl, hp.1 a rfl⟩
    | none =>
      have hn := List.find?_eq_none.mp hfind s hs
      exact absurd ((tomorrowGuard_iff (some a) now s).mpr
        ⟨fun c hc => by cases hc; exact hid, hfrom⟩) hn
  · intro hno
    have hne : schedules ≠ [] := by
      rintro rfl
      simp [activeScheduleForNow] at ha
    obtain ⟨init, last, hsplit, hlast⟩ := lastElem_of_ne_nil schedules hne
    refine ⟨init, last, hsplit, ?_⟩
    unfold scheduleForTomorrow
    simp only [ha]
    have hfind : schedules.find? (fun s =>
        !isCurrent (some a) s && (Time.After s.From now || Time.Equal s.From now)) = none := by
      apply List.find?_eq_none.mpr
      intro s hs hp
      have h := (tomorrowGuard_iff (some a) now s).mp hp
      exact hno ⟨s, hs, h.1 a rfl, h.2⟩
    rw [hfind]
    exact hlast

/-- Claim C3 (amended) at a concrete input: at `now = 50` the first schedule is active and
the second one starts later, so the ids differ. -/
theorem scheduleForTomorrow_id_ne_witness :
    ∃ t, scheduleForTomorrow [emptySchedule 1 0 100, emptySchedule 2 100 200] 50 = some t ∧
      t.ID ≠ (emptySchedule 1 0 100).ID :=
  (scheduleForTomorrow_id_ne [emptySchedule 1 0 100, emptySchedule 2 100 200] 50
    (emptySchedule 1 0 100) (by decide)).1 ⟨emptySchedule 2 100 200, by decide, by decide, by decide⟩

/-- Claim C4: with `current = activeScheduleForNow schedules now`, `scheduleForTomorrow`
returns the first schedule in list order whose id differs from the id of `current` and
whose `from >= now`; when no schedule qualifies it returns the last element of the list;
for the empty list it returns no schedule. -/
theorem scheduleForTomorrow_spec (schedules : List ActiveSchedule) (now : Time) :
    (∀ (pre post : List ActiveSchedule) (s : ActiveSchedule),
      schedules = pre ++ s :: post →
      ((∀ c, activeScheduleForNow schedules now = some c → s.ID ≠ c.ID) ∧ now ≤ s.From) →
      (∀ x ∈ pre,
        ¬ ((∀ c, activeScheduleForNow schedules now = some c → x.ID ≠ c.ID) ∧ now ≤ x.From)) →
      scheduleForTomorrow schedules now = some s) ∧
    ((∀ x ∈ schedules,
        ¬ ((∀ c, activeScheduleForNow schedules now = some c → x.ID ≠ c.ID) ∧ now ≤ x.From)) →
      schedules ≠ [] →
      ∃ init last, schedules = init ++ [last] ∧
        scheduleForTomorrow schedules now = some last) ∧
    (schedules = [] → scheduleForTomorrow schedules now = none) := by
  refine ⟨?_, ?_, ?_⟩
  · intro pre post s hsplit hs hpre
    unfold scheduleForTomorrow
    simp only
    have hfind := find_first_of_split
      (fun s => !isCurrent (activeScheduleForNow schedules now) s &&
        (Time.After s.From now || Time.Equal s.From now)) pre post s
      ((tomorrowGuard_iff _ now s).mpr hs)
      (fun x hx hp => hpre x hx ((tomorrowGuard_iff _ now x).mp hp))
    rw [← hsplit] at hfind
    rw [hfind]
  · intro hall hne
    obtain ⟨init, last, hsplit, hlast⟩ := lastElem_of_ne_nil schedules hne
    refine ⟨init, last, hsplit, ?_⟩
    unfold scheduleForTomorrow
    simp only
    have hfind : schedules.find? (fun s =>
        !isCurrent (activeScheduleForNow schedules now) s &&
          (Time.After s.From now || Time.Equal s.From now)) = none := by
      apply List.find?_eq_none.mpr
      intro s hs hp
      exact hall s hs ((tomorrowGuard_iff _ now s).mp hp)
    rw [hfind]
    exact hlast
  · rintro rfl
    rfl

/-- Claim C4 at a concrete input: at `now = 150` the second schedule is active, and the
third is the first one with another id that starts at or after `now`. -/
theorem scheduleForTomorrow_spec_witness :
    scheduleForTomorrow
      [emptySchedule 1 0 100, emptySchedule 2 100 200, emptySchedule 3 200 300,
        emptySchedule 4 300 400] 150 = some (emptySchedule 3 200 300) :=
  (scheduleForTomorrow_spec _ 150).1 [emptySchedule 1 0 100, emptySchedule 2 100 200]
    [emptySchedule 4 300 400] (emptySchedule 3 200 300) rfl (by decide) (by decide)

/-- Claim C5: for an instant whose local clock reads `h:m:s` (hour `h` in 0..23, minute `m`
in 0..59, second `s` in 0..59), the local hour is `h`, the local minute is `m`, and
`currentTimeSeriesID` returns `h*2+1` when `m < 30` and `h*2+2` when `m >= 30`; so
`HH:00:00` and `HH:29:59` give `H*2+1`, and `HH:30:00` and `HH:59:59` give `H*2+2`. -/
theorem currentTimeSeriesID_clock (kyivLocation : Location) (now : Time) (h m s : Int)
    (_hh : 0 ≤ h ∧ h < 24) (hm : 0 ≤ m ∧ m < 60) (hs : 0 ≤ s ∧ s < 60)
    (hclock : Time.localSec kyivLocation now % 86400 = h * 3600 + m * 60 + s) :
    Time.Hour kyivLocation now = h ∧ Time.Minute kyivLocation now = m ∧
    (m < 30 → currentTimeSeriesID kyivLocation now = h * 2 + 1) ∧
    (30 ≤ m → currentTimeSeriesID kyivLocation now = h * 2 + 2) := by
  have hH : Time.Hour kyivLocation now = h := by
    unfold Time.Hour
    generalize Time.localSec kyivLocation now = x at hclock
    omega
  have hM : Time.Minute kyivLocation now = m := by
    unfold Time.Minute
    generalize Time.localSec kyivLocation now = x at hclock
    omega
  refine ⟨hH, hM, ?_, ?_⟩
  · intro hlt
    unfold currentTimeSeriesID
    simp only [hH, hM]
    rw [if_neg (by omega)]
  · intro hge
    unfold currentTimeSeriesID
    simp only [hH, hM]
    rw [if_pos (by omega)]
    omega

/-- Claim C5 at the boundary instants 08:00:00, 08:29:59, 08:30:00 and 08:59:59 of the
sample day. -/
theorem currentTimeSeriesID_clock_witness :
    (currentTimeSeriesID kyivWinter (sampleClock 8 0) = 8 * 2 + 1 ∧
      currentTimeSeriesID kyivWinter (sampleClock 8 29 + 59 * 1000000000) = 8 * 2 + 1) ∧
    (currentTimeSeriesID kyivWinter (sampleClock 8 30) = 8 * 2 + 2 ∧
      currentTimeSeriesID kyivWinter (sampleClock 8 59 + 59 * 1000000000) = 8 * 2 + 2) :=
  ⟨⟨(currentTimeSeriesID_clock kyivWinter (sampleClock 8 0) 8 0 0
        (by decide) (by decide) (by decide) (by decide)).2.2.1 (by decide),
    (currentTimeSeriesID_clock kyivWinter (sampleClock 8 29 + 59 * 1000000000) 8 29 59
        (by decide) (by decide) (by decide) (by decide)).2.2.1 (by decide)⟩,
   ⟨(currentTimeSeriesID_clock kyivWinter (sampleClock 8 30) 8 30 0
        (by decide) (by decide) (by decide) (by decide)).2.2.2 (by decide),
    (currentTimeSeriesID_clock kyivWinter (sampleClock 8 59 + 59 * 1000000000) 8 59 59
        (by decide) (by decide) (by decide) (by decide)).2.2.2 (by decide)⟩⟩

/-- Claim C6: for every location and every instant, `currentTimeSeriesID` returns a slot
index between 1 and 48. -/
theorem currentTimeSeriesID_bounds (kyivLocation : Location) (now : Time) :
    1 ≤ currentTimeSeriesID kyivLocation now ∧ currentTimeSeriesID kyivLocation now ≤ 48 := by
  unfold currentTimeSeriesID Time.Hour Time.Minute
  generalize Time.localSec kyivLocation now = x
  simp only
  split <;> omega

/-- Claim C7: `entryStatus` maps `PROBABLY_OFF` to (OFF, true), maps `OFF` and `SURE_OFF`
to (OFF, false), and maps every other category to (OFF, false); hence the state is always
OFF and the flag is true exactly for `PROBABLY_OFF`. -/
theorem entryStatus_spec :
    entryStatus OutageProbablyOff = (StatusOff, true) ∧
    entryStatus OutageOff = (StatusOff, false) ∧
    entryStatus OutageSureOff = (StatusOff, false) ∧
    (∀ t : OutageType, t ≠ OutageProbablyOff → t ≠ OutageOff → t ≠ OutageSureOff →
      entryStatus t = (StatusOff, false)) ∧
    (∀ t : OutageType, (entryStatus t).1 = StatusOff ∧
      ((entryStatus t).2 = true ↔ t = OutageProbablyOff)) := by
  refine ⟨by decide, by decide, by decide, ?_, ?_⟩
  · intro t h1 h2 h3
    simp [entryStatus, h1, h2, h3]
  · intro t
    unfold entryStatus
    split
    · simp [*]
    · split <;> simp [*]

/-- The state computed by `entryStatus` is OFF for every category. -/
theorem entryStatus_fst (t : OutageType) : (entryStatus t).1 = StatusOff := by
  unfold entryStatus
  split
  · rfl
  · split <;> rfl

/-- The two states are different strings. -/
theorem statusOff_ne_statusOn : StatusOff ≠ StatusOn := by decide

/-- The event test of `GetCurrentInfo`, in words. -/
theorem eventGuard_iff (queue : OutageQueue) (slot : Int) (e : ScheduleEntry) :
    (decide (e.OutageQueueID = queue.ID) && decide (e.TimeSeriesID = slot)) = true ↔
      e.OutageQueueID = queue.ID ∧ e.TimeSeriesID = slot := by
  simp

/-- Claim C8: for a resolved queue, `GetCurrentInfo` returns a result whose state is OFF
exactly when the schedule selected by `activeScheduleForNow` exists and holds an event for
the queue id and the slot `currentTimeSeriesID now`; the state and flag are then the
classification of the first such event in the order of the schedule's events; otherwise the
state is ON and the flag false. In the scenario (one OFF event at slot 17, `now` = 08:15
local, which is slot 17) the result is OFF with the flag false. -/
theorem GetCurrentInfo_spec (kyivLocation : Location) (c : Client) (now : Time) (name : String)
    (queue : OutageQueue) (timeSeries : List TimeSeries) (schedules : List ActiveSchedule)
    (hq : c.findQueue name = .ok queue) (hts : c.GetTimeSeries = .ok timeSeries)
    (hs : c.GetActiveSchedule = .ok schedules) :
    (∃ info, c.GetCurrentInfo kyivLocation now name = .ok info ∧
      (info.Status = StatusOff ↔
        ∃ sched, activeScheduleForNow schedules now = some sched ∧
          ∃ e ∈ sched.Series, e.OutageQueueID = queue.ID ∧
            e.TimeSeriesID = currentTimeSeriesID kyivLocation now) ∧
      (∀ (sched : ActiveSchedule) (pre post : List ScheduleEntry) (e : ScheduleEntry),
        activeScheduleForNow schedules now = some sched →
        sched.Series = pre ++ e :: post →
        (e.OutageQueueID = queue.ID ∧ e.TimeSeriesID = currentTimeSeriesID kyivLocation now) →
        (∀ x ∈ pre, ¬ (x.OutageQueueID = queue.ID ∧
          x.TimeSeriesID = currentTimeSeriesID kyivLocation now)) →
        (info.Status, info.Probably) = entryStatus e.Type_) ∧
      ((¬ ∃ sched, activeScheduleForNow schedules now = some sched ∧
          ∃ e ∈ sched.Series, e.OutageQueueID = queue.ID ∧
            e.TimeSeriesID = currentTimeSeriesID kyivLocation now) →
        info.Status = StatusOn ∧ info.Probably = false)) ∧
    (currentTimeSeriesID kyivWinter (sampleClock 8 15) = 17 ∧
      ∃ info, sampleClient.GetCurrentInfo kyivWinter (sampleClock 8 15) "6.1" = .ok info ∧
        info.Status = StatusOff ∧ info.Probably = false) := by
  refine ⟨?_, by decide, _, rfl, rfl, rfl⟩
  unfold Client.GetCurrentInfo
  simp only [hq, hts, hs]
  cases hact : activeScheduleForNow schedules now with
  | none =>
    refine ⟨_, rfl, ?_, ?_, ?_⟩
    · simp [statusOff_ne_statusOn.symm]
    · intro sched pre post e h
      simp at h
    · intro _
      exact ⟨rfl, rfl⟩
  | some sched =>
    simp only
    cases hfind : sched.Series.find? (fun entry =>
        decide (entry.OutageQueueID = queue.ID) &&
          decide (entry.TimeSeriesID = currentTimeSeriesID kyivLocation now)) with
    | none =>
      have hno : ∀ e ∈ sched.Series, ¬ (e.OutageQueueID = queue.ID ∧
          e.TimeSeriesID = currentTimeSeriesID kyivLocation now) := by
        intro e he h
        exact List.find?_eq_none.mp hfind e he ((eventGuard_iff queue _ e).mpr h)
      refine ⟨_, rfl, ?_, ?_, ?_⟩
      · constructor
        · intro h
          exact absurd h statusOff_ne_statusOn.symm
        · rintro ⟨sched', hsched', e, he, h⟩
          cases hsched'
          exact absurd h (hno e he)
      · intro sched' pre post e hsched' hsplit h _
        cases hsched'
        exact absurd h (hno e (by rw [hsplit]; simp))
      · intro _
        exact ⟨rfl, rfl⟩
    | some entry =>
      have hpe := List.find?_some hfind
      have hguard := (eventGuard_iff queue _ entry).mp hpe
      have hmem := List.mem_of_find?_eq_some hfind
      refine ⟨_, rfl, ?_, ?_, ?_⟩
      · simp only [entryStatus_fst, true_iff]
        exact ⟨sched, rfl, entry, hmem, hguard⟩
      · intro sched' pre post e hsched' hsplit h hpre
        cases hsched'
        have hfirst := find_first_of_split (fun entry =>
          decide (entry.OutageQueueID = queue.ID) &&
            decide (entry.TimeSeriesID = currentTimeSeriesID kyivLocation now)) pre post e
          ((eventGuard_iff queue _ e).mpr h)
          (fun x hx hp => hpre x hx ((eventGuard_iff queue _ x).mp hp))
        rw [← hsplit, hfind] at hfirst
        cases hfirst
        rfl
      · intro hno
        exact absurd ⟨sched, rfl, entry, hmem, hguard⟩ hno

/-- Claim C8 at a concrete input: at 07:45 local (slot 16) the sample schedule has no event
for the queue, and the state is ON. -/
theorem GetCurrentInfo_spec_witness :
    ∃ info, sampleClient.GetCurrentInfo kyivWinter (sampleClock 7 45) "6.1" = .ok info ∧
      info.Status = StatusOn ∧ info.Probably = false := by
  obtain ⟨info, hinfo, _, _, hon⟩ :=
    (GetCurrentInfo_spec kyivWinter sampleClient (sampleClock 7 45) "6.1" sampleQueue
      standardGrid [sampleSchedule] rfl rfl rfl).1
  refine ⟨info, hinfo, hon ?_⟩
  rintro ⟨sched, hsched, e, he, _, hslot⟩
  have h16 : currentTimeSeriesID kyivWinter (sampleClock 7 45) = 16 := by decide
  have hsel : activeScheduleForNow [sampleSchedule] (sampleClock 7 45) = some sampleSchedule := by
    decide
  rw [hsel] at hsched
  cases hsched
  rw [h16] at hslot
  simp [sampleSchedule, sampleEntry] at he
  subst he
  simp at hslot

/-- Looking a slot id up in the map built by the loop over the events: the last event of the
list for the queue and that slot id wins, and without one the initial map answers. -/
theorem foldl_entryMap_lookup (queue : OutageQueue) (k : Int) (l : List ScheduleEntry)
    (m : EntryMap) :
    (l.foldl
      (fun (entryMap : EntryMap) entry =>
        if entry.OutageQueueID = queue.ID then entryMap.set entry.TimeSeriesID entry
        else entryMap) m) k =
      match l.reverse.find? (fun e =>
          decide (e.OutageQueueID = queue.ID) && decide (e.TimeSeriesID = k)) with
      | some e => some e
      | none => m k := by
  induction l generalizing m with
  | nil => simp
  | cons x xs ih =>
    rw [List.foldl_cons, ih, List.reverse_cons, List.find?_append]
    cases hrev : xs.reverse.find? (fun e =>
        decide (e.OutageQueueID = queue.ID) && decide (e.TimeSeriesID = k)) with
    | some e => simp
    | none =>
      by_cases hq : x.OutageQueueID = queue.ID
      · by_cases hk : x.TimeSeriesID = k
        · simp [List.find?_cons, hq, hk, EntryMap.set]
        · have hk' : ¬ k = x.TimeSeriesID := fun h => hk h.symm
          simp [List.find?_cons, hq, hk, hk', EntryMap.set]
      · simp [List.find?_cons, hq]

/-- An entry found in the map is an event of the selected schedule for the queue and key. -/
theorem buildEntryMap_some (selected : Option ActiveSchedule) (queue : OutageQueue) (k : Int)
    (e : ScheduleEntry) (h : buildEntryMap selected queue k = some e) :
    ∃ sched, selected = some sched ∧ e ∈ sched.Series ∧
      e.OutageQueueID = queue.ID ∧ e.TimeSeriesID = k := by
  cases selected with
  | none => simp [buildEntryMap, EntryMap.empty] at h
  | some sched =>
    unfold buildEntryMap at h
    simp only at h
    rw [foldl_entryMap_lookup] at h
    cases hrev : sched.Series.reverse.find? (fun e =>
        decide (e.OutageQueueID = queue.ID) && decide (e.TimeSeriesID = k)) with
    | none => simp [hrev, EntryMap.empty] at h
    | some e' =>
      rw [hrev] at h
      simp only [Option.some.injEq] at h
      subst h
      have hp := List.find?_some hrev
      have hmem := List.mem_of_find?_eq_some hrev
      exact ⟨sched, rfl, List.mem_reverse.mp hmem, (eventGuard_iff queue k e').mp hp⟩

/-- A key absent from the map has no event in the selected schedule for the queue. -/
theorem buildEntryMap_none (selected : Option ActiveSchedule) (queue : OutageQueue) (k : Int)
    (h : buildEntryMap selected queue k = none) :
    ¬ ∃ sched, selected = some sched ∧
      ∃ e ∈ sched.Series, e.OutageQueueID = queue.ID ∧ e.TimeSeriesID = k := by
  rintro ⟨sched, rfl, e, he, hg⟩
  unfold buildEntryMap at h
  simp only at h
  rw [foldl_entryMap_lookup] at h
  cases hrev : sched.Series.reverse.find? (fun e =>
      decide (e.OutageQueueID = queue.ID) && decide (e.TimeSeriesID = k)) with
  | none =>
    exact List.find?_eq_none.mp hrev e (List.mem_reverse.mpr he) ((eventGuard_iff queue k e).mpr hg)
  | some e' => simp [hrev] at h

/-- The rows carry the slots of the grid, in order. -/
theorem dailySlots_timeSlots (entryMap : EntryMap) (timeSeries : List TimeSeries) :
    (dailySlots entryMap timeSeries).map (fun row => row.TimeSlot) = timeSeries := by
  unfold dailySlots
  rw [List.map_map]
  conv_rhs => rw [← List.map_id timeSeries]
  apply List.map_congr_left
  intro ts _
  simp only [Function.comp]
  split <;> rfl

/-- The state of one row of the table, against the selected schedule. -/
theorem dailySlots_row (selected : Option ActiveSchedule) (queue : OutageQueue)
    (timeSeries : List TimeSeries) (row : DailySlot)
    (hrow : row ∈ dailySlots (buildEntryMap selected queue) timeSeries) :
    ((row.Status = StatusOn ∧ row.Probably = false) ↔
      ¬ ∃ sched, selected = some sched ∧
        ∃ e ∈ sched.Series, e.OutageQueueID = queue.ID ∧ e.TimeSeriesID = row.TimeSlot.ID) ∧
    ((∃ sched, selected = some sched ∧
        ∃ e ∈ sched.Series, e.OutageQueueID = queue.ID ∧ e.TimeSeriesID = row.TimeSlot.ID) →
      ∃ sched e, selected = some sched ∧ e ∈ sched.Series ∧ e.OutageQueueID = queue.ID ∧
        e.TimeSeriesID = row.TimeSlot.ID ∧ (row.Status, row.Probably) = entryStatus e.Type_ ∧
        row.Status = StatusOff) := by
  unfold dailySlots at hrow
  obtain ⟨ts, _, hts⟩ := List.mem_map.mp hrow
  cases hlook : buildEntryMap selected queue ts.ID with
  | none =>
    rw [hlook] at hts
    subst hts
    have hno := buildEntryMap_none selected queue ts.ID hlook
    exact ⟨⟨fun _ => hno, fun _ => ⟨rfl, rfl⟩⟩, fun h => absurd h hno⟩
  | some e =>
    rw [hlook] at hts
    subst hts
    obtain ⟨sched, hsel, hmem, hq, hk⟩ := buildEntryMap_some selected queue ts.ID e hlook
    have hex : ∃ sched, selected = some sched ∧
        ∃ e ∈ sched.Series, e.OutageQueueID = queue.ID ∧ e.TimeSeriesID = ts.ID :=
      ⟨sched, hsel, e, hmem, hq, hk⟩
    refine ⟨⟨fun h => ?_, fun h => absurd hex h⟩, fun _ => ?_⟩
    · have hoff : StatusOff = StatusOn := (entryStatus_fst e.Type_).symm.trans h.1
      exact absurd hoff statusOff_ne_statusOn
    · exact ⟨sched, e, hsel, hmem, hq, hk, rfl, entryStatus_fst e.Type_⟩

/-- Claim C9: for a resolved queue, any schedule list and any instant, with a slot grid
whose ids are 1..48 in ascending order, `GetDailyInfo` and `GetTomorrowDailyInfo` each
return exactly 48 rows, whose time slots are, in order, the slots of the grid: one row per
slot, ids ascending from 1 to 48. -/
theorem dailyInfo_rows (c : Client) (now : Time) (name : String) (queue : OutageQueue)
    (grid : List TimeSeries) (schedules : List ActiveSchedule)
    (hq : c.findQueue name = .ok queue) (hts : c.GetTimeSeries = .ok grid)
    (hs : c.GetActiveSchedule = .ok schedules)
    (hids : grid.map (fun ts => ts.ID) = (List.range 48).map (fun (i : Nat) => (i : Int) + 1)) :
    (∃ daily, c.GetDailyInfo now name = .ok daily ∧ daily.Slots.length = 48 ∧
      daily.Slots.map (fun row => row.TimeSlot) = grid ∧
      daily.Slots.map (fun row => row.TimeSlot.ID) =
        (List.range 48).map (fun (i : Nat) => (i : Int) + 1)) ∧
    (∃ daily, c.GetTomorrowDailyInfo now name = .ok daily ∧ daily.Slots.length = 48 ∧
      daily.Slots.map (fun row => row.TimeSlot) = grid ∧
      daily.Slots.map (fun row => row.TimeSlot.ID) =
        (List.range 48).map (fun (i : Nat) => (i : Int) + 1)) := by
  have hlen : grid.length = 48 := by
    have h := congrArg List.length hids
    simpa using h
  have key : ∀ entryMap : EntryMap,
      (dailySlots entryMap grid).length = 48 ∧
      (dailySlots entryMap grid).map (fun row => row.TimeSlot) = grid ∧
      (dailySlots entryMap grid).map (fun row => row.TimeSlot.ID) =
        (List.range 48).map (fun (i : Nat) => (i : Int) + 1) := by
    intro entryMap
    have hmap := dailySlots_timeSlots entryMap grid
    refine ⟨?_, hmap, ?_⟩
    · have h := congrArg List.length hmap
      rw [List.length_map] at h
      rw [h, hlen]
    · rw [← hids]
      conv_rhs => rw [← hmap]
      rw [List.map_map]
      rfl
  constructor
  · refine ⟨DailyInfo.mk queue
        (dailySlots (buildEntryMap (activeScheduleForNow schedules now) queue) grid),
      ?_, key _⟩
    simp [Client.GetDailyInfo, hq, hts, hs]
  · refine ⟨DailyInfo.mk queue
        (dailySlots (buildEntryMap (scheduleForTomorrow schedules now) queue) grid),
      ?_, key _⟩
    simp [Client.GetTomorrowDailyInfo, hq, hts, hs]

/-- Claim C9 at a concrete input: the table of the sample service has the 48 rows of the
standard grid. -/
theorem dailyInfo_rows_witness :
    (∃ daily, sampleClient.GetDailyInfo (sampleClock 7 45) "6.1" = .ok daily ∧
      daily.Slots.length = 48 ∧
      daily.Slots.map (fun row => row.TimeSlot) = standardGrid ∧
      daily.Slots.map (fun row => row.TimeSlot.ID) =
        (List.range 48).map (fun (i : Nat) => (i : Int) + 1)) :=
  (dailyInfo_rows sampleClient (sampleClock 7 45) "6.1" sampleQueue standardGrid
    [sampleSchedule] rfl rfl rfl (by decide)).1

/-- Claim C10: both `GetDailyInfo` (selected schedule `activeScheduleForNow`) and
`GetTomorrowDailyInfo` (selected schedule `scheduleForTomorrow`) return a table, and in
every row the state is ON with the flag false exactly when the selected schedule is absent
or holds no event for the queue id and the row's slot id; otherwise the state and flag of
the row are the classification of an event of the selected schedule for that pair, and
the state is OFF. -/
theorem dailyInfo_row_state (c : Client) (now : Time) (name : String) (queue : OutageQueue)
    (timeSeries : List TimeSeries) (schedules : List ActiveSchedule)
    (hq : c.findQueue name = .ok queue) (hts : c.GetTimeSeries = .ok timeSeries)
    (hs : c.GetActiveSchedule = .ok schedules) :
    (∃ daily, c.GetDailyInfo now name = .ok daily) ∧
    (∃ daily, c.GetTomorrowDailyInfo now name = .ok daily) ∧
    ∀ (selected : Option ActiveSchedule) (daily : DailyInfo),
      (selected = activeScheduleForNow schedules now ∧ c.GetDailyInfo now name = .ok daily) ∨
      (selected = scheduleForTomorrow schedules now ∧
        c.GetTomorrowDailyInfo now name = .ok daily) →
      ∀ row ∈ daily.Slots,
        ((row.Status = StatusOn ∧ row.Probably = false) ↔
          ¬ ∃ sched, selected = some sched ∧
            ∃ e ∈ sched.Series, e.OutageQueueID = queue.ID ∧
              e.TimeSeriesID = row.TimeSlot.ID) ∧
        ((∃ sched, selected = some sched ∧
            ∃ e ∈ sched.Series, e.OutageQueueID = queue.ID ∧
              e.TimeSeriesID = row.TimeSlot.ID) →
          ∃ sched e, selected = some sched ∧ e ∈ sched.Series ∧
            e.OutageQueueID = queue.ID ∧ e.TimeSeriesID = row.TimeSlot.ID ∧
            (row.Status, row.Probably) = entryStatus e.Type_ ∧ row.Status = StatusOff) := by
  have hdaily : c.GetDailyInfo now name = .ok
      { Queue := queue,
        Slots := dailySlots (buildEntryMap (activeScheduleForNow schedules now) queue)
          timeSeries } := by
    simp [Client.GetDailyInfo, hq, hts, hs]
  have htomorrow : c.GetTomorrowDailyInfo now name = .ok
      { Queue := queue,
        Slots := dailySlots (buildEntryMap (scheduleForTomorrow schedules now) queue)
          timeSeries } := by
    simp [Client.GetTomorrowDailyInfo, hq, hts, hs]
  refine ⟨⟨_, hdaily⟩, ⟨_, htomorrow⟩, ?_⟩
  rintro selected daily (⟨hsel, hd⟩ | ⟨hsel, hd⟩) row hrow
  · rw [hdaily] at hd
    cases hd
    subst hsel
    exact dailySlots_row _ queue timeSeries row hrow
  · rw [htomorrow] at hd
    cases hd
    subst hsel
    exact dailySlots_row _ queue timeSeries row hrow

/-- Claim C10 at a concrete input: in the table of the sample service only the row of
slot 17 can be OFF. -/
theorem dailyInfo_row_state_witness :
    ∃ daily, sampleClient.GetDailyInfo (sampleClock 7 45) "6.1" = .ok daily ∧
      ∀ row ∈ daily.Slots, row.Status = StatusOff → row.TimeSlot.ID = 17 := by
  have hall := dailyInfo_row_state sampleClient (sampleClock 7 45) "6.1" sampleQueue
    standardGrid [sampleSchedule] rfl rfl rfl
  obtain ⟨daily, hd⟩ := hall.1
  refine ⟨daily, hd, ?_⟩
  intro row hrow hoff
  have hspec := hall.2.2 _ daily (Or.inl ⟨rfl, hd⟩) row hrow
  have hex := not_not.mp (fun hno => statusOff_ne_statusOn
    (hoff.symm.trans (hspec.1.mpr hno).1))
  obtain ⟨sched, hsched, e, he, _, hslot⟩ := hex
  have hsel : activeScheduleForNow [sampleSchedule] (sampleClock 7 45) = some sampleSchedule := by
    decide
  rw [hsel] at hsched
  cases hsched
  simp [sampleSchedule, sampleEntry] at he
  subst he
  exact hslot.symm

/-- The slot id of an instant lies between 1 and 48 (used by the proofs about
`GetRemainingTime`). -/
theorem slotID_in_grid (kyivLocation : Location) (now : Time) :
    1 ≤ currentTimeSeriesID kyivLocation now ∧ currentTimeSeriesID kyivLocation now ≤ 48 := by
  unfold currentTimeSeriesID Time.Hour Time.Minute
  generalize Time.localSec kyivLocation now = x
  simp only
  split <;> omega

/-- The first element of `f 0, ..., f (n-1)` that passes a test, by its index. -/
theorem find_map_range_some {α : Type} (p : α → Bool) (f : Nat → α) (n : Nat) (b : α)
    (h : ((List.range n).map f).find? p = some b) :
    ∃ k, k < n ∧ b = f k ∧ p (f k) = true ∧ ∀ k', k' < k → p (f k') = false := by
  induction n with
  | zero => simp at h
  | succ n ih =>
    rw [List.range_succ, List.map_append, List.find?_append] at h
    cases hA : ((List.range n).map f).find? p with
    | some a =>
      rw [hA] at h
      simp only [Option.or_some, Option.some.injEq] at h
      subst h
      obtain ⟨k, hk, hb, hp, hmin⟩ := ih hA
      exact ⟨k, Nat.lt_succ_of_lt hk, hb, hp, hmin⟩
    | none =>
      rw [hA] at h
      simp only [Option.none_or, List.map_cons, List.map_nil] at h
      have hpb := List.find?_some h
      have hmem := List.mem_of_find?_eq_some h
      simp only [List.mem_singleton] at hmem
      subst hmem
      refine ⟨n, Nat.lt_succ_self n, rfl, hpb, ?_⟩
      intro k' hk'
      have hnone := List.find?_eq_none.mp hA (f k')
        (List.mem_map.mpr ⟨k', List.mem_range.mpr hk', rfl⟩)
      simpa using hnone

/-- What the forward scan of `GetRemainingTime` finds: the smallest key after the current
slot id, up to 48. -/
theorem nextOffSlotID_some (entryMap : EntryMap) (c i : Int)
    (h : nextOffSlotID entryMap c = some i) :
    c < i ∧ i ≤ 48 ∧ (entryMap i).isSome = true ∧
      ∀ j, c < j → j < i → entryMap j = none := by
  unfold nextOffSlotID at h
  obtain ⟨k, hk, hi, hp, hmin⟩ := find_map_range_some _ _ _ _ h
  subst hi
  refine ⟨by omega, by omega, hp, ?_⟩
  intro j hcj hji
  have hj := hmin (j - (c + 1)).toNat (by omega)
  have hjeq : c + 1 + ((j - (c + 1)).toNat : Int) = j := by omega
  rw [hjeq] at hj
  cases hm : entryMap j with
  | none => rfl
  | some e => simp [hm] at hj

/-- The forward scan finds nothing only when no id after the current one, up to 48, is a
key. -/
theorem nextOffSlotID_none (entryMap : EntryMap) (c : Int)
    (h : nextOffSlotID entryMap c = none) :
    ∀ j, c < j → j ≤ 48 → entryMap j = none := by
  unfold nextOffSlotID at h
  intro j hcj hj
  have hnone := List.find?_eq_none.mp h j
    (List.mem_map.mpr ⟨(j - (c + 1)).toNat, List.mem_range.mpr (by omega), by omega⟩)
  cases hm : entryMap j with
  | none => rfl
  | some e => simp [hm] at hnone

/-- A key is in the map built from the selected schedule exactly when that schedule holds
an event for the queue and the key. -/
theorem buildEntryMap_isSome_iff (selected : Option ActiveSchedule) (queue : OutageQueue)
    (k : Int) :
    (buildEntryMap selected queue k).isSome = true ↔
      ∃ sched, selected = some sched ∧
        ∃ e ∈ sched.Series, e.OutageQueueID = queue.ID ∧ e.TimeSeriesID = k := by
  cases hm : buildEntryMap selected queue k with
  | none =>
    simp only [Option.isSome_none, Bool.false_eq_true, false_iff]
    exact buildEntryMap_none selected queue k hm
  | some e =>
    simp only [Option.isSome_some, true_iff]
    obtain ⟨sched, hsel, hmem, hq, hk⟩ := buildEntryMap_some selected queue k e hm
    exact ⟨sched, hsel, e, hmem, hq, hk⟩

/-- Claim C11: for a resolved queue, if the active schedule holds an event for the queue id
and the slot `currentTimeSeriesID now`, `GetRemainingTime` returns the classification of
such an event as state and flag (the state is OFF), a remaining duration of zero, and
neither a shutoff instant nor a shutoff slot. -/
theorem GetRemainingTime_off (kyivLocation : Location) (c : Client) (now : Time)
    (name : String) (queue : OutageQueue) (timeSeries : List TimeSeries)
    (schedules : List ActiveSchedule)
    (hq : c.findQueue name = .ok queue) (hts : c.GetTimeSeries = .ok timeSeries)
    (hs : c.GetActiveSchedule = .ok schedules)
    (hev : ∃ sched, activeScheduleForNow schedules now = some sched ∧
      ∃ e ∈ sched.Series, e.OutageQueueID = queue.ID ∧
        e.TimeSeriesID = currentTimeSeriesID kyivLocation now) :
    ∃ r, c.GetRemainingTime kyivLocation now name = .ok r ∧
      (∃ sched e, activeScheduleForNow schedules now = some sched ∧ e ∈ sched.Series ∧
        e.OutageQueueID = queue.ID ∧ e.TimeSeriesID = currentTimeSeriesID kyivLocation now ∧
        (r.Status, r.Probably) = entryStatus e.Type_) ∧
      r.Status = StatusOff ∧ r.Remaining = 0 ∧ r.ShutoffAt = none ∧ r.ShutoffSlot = none := by
  have hsome := (buildEntryMap_isSome_iff (activeScheduleForNow schedules now) queue
    (currentTimeSeriesID kyivLocation now)).mpr hev
  cases hm : buildEntryMap (activeScheduleForNow schedules now) queue
      (currentTimeSeriesID kyivLocation now) with
  | none => simp [hm] at hsome
  | some entry =>
    obtain ⟨sched, hsel, hmem, hqe, hk⟩ := buildEntryMap_some _ queue _ entry hm
    refine ⟨RemainingTime.mk queue (entryStatus entry.Type_).1 (entryStatus entry.Type_).2 0
      none none, ?_, ⟨sched, entry, hsel, hmem, hqe, hk, rfl⟩, entryStatus_fst entry.Type_,
      rfl, rfl, rfl⟩
    unfold Client.GetRemainingTime
    simp only [hq, hts, hs, hm]

/-- Claim C11 at a concrete input: at 08:15 local (slot 17) the sample schedule has an OFF
event for the queue. -/
theorem GetRemainingTime_off_witness :
    ∃ r, sampleClient.GetRemainingTime kyivWinter (sampleClock 8 15) "6.1" = .ok r ∧
      r.Status = StatusOff ∧ r.Remaining = 0 ∧ r.ShutoffAt = none ∧ r.ShutoffSlot = none := by
  obtain ⟨r, hr, _, hrest⟩ :=
    GetRemainingTime_off kyivWinter sampleClient (sampleClock 8 15) "6.1" sampleQueue
      standardGrid [sampleSchedule] rfl rfl rfl
      ⟨sampleSchedule, by decide, sampleEntry 9001 17 OutageOff, by decide, by decide, by decide⟩
  exact ⟨r, hr, hrest⟩

/-- Claim C14: for a resolved queue, if the active schedule (or its absence) gives the
queue no event at the slot `currentTimeSeriesID now` nor at any later slot id up to 48,
`GetRemainingTime` returns state ON, the flag false, a remaining duration of zero, and
neither a shutoff instant nor a shutoff slot; nothing is assumed about events at earlier
slot ids, which therefore do not affect the result. -/
theorem GetRemainingTime_no_shutoff (kyivLocation : Location) (c : Client) (now : Time)
    (name : String) (queue : OutageQueue) (timeSeries : List TimeSeries)
    (schedules : List ActiveSchedule)
    (hq : c.findQueue name = .ok queue) (hts : c.GetTimeSeries = .ok timeSeries)
    (hs : c.GetActiveSchedule = .ok schedules)
    (hnone : ∀ j, currentTimeSeriesID kyivLocation now ≤ j → j ≤ 48 →
      ¬ ∃ sched, activeScheduleForNow schedules now = some sched ∧
        ∃ e ∈ sched.Series, e.OutageQueueID = queue.ID ∧ e.TimeSeriesID = j) :
    ∃ r, c.GetRemainingTime kyivLocation now name = .ok r ∧
      r.Queue = queue ∧ r.Status = StatusOn ∧ r.Probably = false ∧ r.Remaining = 0 ∧
      r.ShutoffAt = none ∧ r.ShutoffSlot = none := by
  have hkey : ∀ j, currentTimeSeriesID kyivLocation now ≤ j → j ≤ 48 →
      buildEntryMap (activeScheduleForNow schedules now) queue j = none := by
    intro j hj1 hj2
    cases hm : buildEntryMap (activeScheduleForNow schedules now) queue j with
    | none => rfl
    | some e =>
      have := (buildEntryMap_isSome_iff (activeScheduleForNow schedules now) queue j).mp
        (by simp [hm])
      exact absurd this (hnone j hj1 hj2)
  have hcur := hkey _ (le_refl _) (slotID_in_grid kyivLocation now).2
  have hnext : nextOffSlotID (buildEntryMap (activeScheduleForNow schedules now) queue)
      (currentTimeSeriesID kyivLocation now) = none := by
    cases hn : nextOffSlotID (buildEntryMap (activeScheduleForNow schedules now) queue)
        (currentTimeSeriesID kyivLocation now) with
    | none => rfl
    | some i =>
      obtain ⟨h1, h2, h3, _⟩ := nextOffSlotID_some _ _ _ hn
      rw [hkey i (le_of_lt h1) h2] at h3
      simp at h3
  refine ⟨RemainingTime.mk queue StatusOn false 0 none none, ?_, rfl, rfl, rfl, rfl, rfl, rfl⟩
  unfold Client.GetRemainingTime
  simp only [hq, hts, hs, hcur, hnext]

/-- Claim C14 at a concrete input: at 09:15 local (slot 19) the only event of the sample
schedule lies at the earlier slot 17. -/
theorem GetRemainingTime_no_shutoff_witness :
    ∃ r, sampleClient.GetRemainingTime kyivWinter (sampleClock 9 15) "6.1" = .ok r ∧
      r.Queue = sampleQueue ∧ r.Status = StatusOn ∧ r.Probably = false ∧ r.Remaining = 0 ∧
      r.ShutoffAt = none ∧ r.ShutoffSlot = none :=
  GetRemainingTime_no_shutoff kyivWinter sampleClient (sampleClock 9 15) "6.1" sampleQueue
    standardGrid [sampleSchedule] rfl rfl rfl
    (by
      intro j hj _
      rintro ⟨sched, hsched, e, he, _, hslot⟩
      have h19 : currentTimeSeriesID kyivWinter (sampleClock 9 15) = 19 := by decide
      have hsel : activeScheduleForNow [sampleSchedule] (sampleClock 9 15)
          = some sampleSchedule := by decide
      rw [hsel] at hsched
      cases hsched
      rw [h19] at hj
      simp [sampleSchedule, sampleEntry] at he
      subst he
      simp at hslot
      omega)

/-- Looking an id up in the map built from the grid: the last slot of the grid with that
id is the one found. -/
theorem buildTsMap_last (pre post : List TimeSeries) (ts : TimeSeries) (i : Int)
    (hid : ts.ID = i) (hpost : ∀ x ∈ post, x.ID ≠ i) :
    buildTsMap (pre ++ ts :: post) i = some ts := by
  have hkeep : ∀ (l : List TimeSeries) (m : TimeSeriesMap), (∀ x ∈ l, x.ID ≠ i) →
      (l.foldl (fun (tsMap : TimeSeriesMap) t => tsMap.set t.ID t) m) i = m i := by
    intro l
    induction l with
    | nil => intro m _; rfl
    | cons x xs ih =>
      intro m hx
      rw [List.foldl_cons, ih _ (fun y hy => hx y (List.mem_cons_of_mem x hy))]
      have hne : ¬ i = x.ID := fun h => hx x (List.mem_cons_self x xs) h.symm
      simp [TimeSeriesMap.set, hne]
  unfold buildTsMap
  rw [List.foldl_append, List.foldl_cons, hkeep post _ hpost]
  simp [TimeSeriesMap.set, hid]

/-- Claim C12 fails as stated: with a grid that has no slot of id 17, at 07:45 local (slot
16, no event) and an event at slot 17, `GetRemainingTime` attaches as shutoff slot the
zero value of `TimeSeries`, which is no slot of the grid; the shutoff instant is then local
midnight and the remaining duration is negative. -/
theorem GetRemainingTime_shutoff_slot_counterexample :
    currentTimeSeriesID kyivWinter (sampleClock 7 45) = 16 ∧
    ∃ r, incompleteGridClient.GetRemainingTime kyivWinter (sampleClock 7 45) "6.1" = .ok r ∧
      r.Status = StatusOn ∧ r.ShutoffSlot = some TimeSeries.zero ∧
      (∀ ts ∈ gridWithout17, r.ShutoffSlot ≠ some ts) ∧
      r.ShutoffAt = some sampleMidnight ∧ r.Remaining < 0 :=
  ⟨by decide, _, rfl, rfl, rfl, by decide, rfl, by decide⟩

/-- Claim C12, amended: for a resolved queue, if the active schedule has no event for the
queue at the slot `currentTimeSeriesID now`, `i` is the smallest slot id after it (up to
48) at which it has one, and the grid holds a slot `ts` with id `i` (the last such slot
of the grid) whose start text gives an hour and a minute within the 32-bit range, then
`GetRemainingTime` returns state ON with the flag false, the shutoff slot `ts`, the
shutoff instant `slotToKyivTime ts now`, and as remaining duration that instant `Sub`
now, which is the instant minus now whenever the difference fits a Duration. -/
theorem GetRemainingTime_next_shutoff (kyivLocation : Location) (c : Client) (now : Time)
    (name : String) (queue : OutageQueue) (timeSeries : List TimeSeries)
    (schedules : List ActiveSchedule) (i : Int) (pre post : List TimeSeries) (ts : TimeSeries)
    (hq : c.findQueue name = .ok queue) (hts : c.GetTimeSeries = .ok timeSeries)
    (hs : c.GetActiveSchedule = .ok schedules)
    (hnocur : ¬ ∃ sched, activeScheduleForNow schedules now = some sched ∧
      ∃ e ∈ sched.Series, e.OutageQueueID = queue.ID ∧
        e.TimeSeriesID = currentTimeSeriesID kyivLocation now)
    (hi : currentTimeSeriesID kyivLocation now < i ∧ i ≤ 48)
    (hev : ∃ sched, activeScheduleForNow schedules now = some sched ∧
      ∃ e ∈ sched.Series, e.OutageQueueID = queue.ID ∧ e.TimeSeriesID = i)
    (hmin : ∀ j, currentTimeSeriesID kyivLocation now < j → j < i →
      ¬ ∃ sched, activeScheduleForNow schedules now = some sched ∧
        ∃ e ∈ sched.Series, e.OutageQueueID = queue.ID ∧ e.TimeSeriesID = j)
    (hgrid : timeSeries = pre ++ ts :: post) (hid : ts.ID = i)
    (hpost : ∀ x ∈ post, x.ID ≠ i)
    (_hhour : -2147483648 ≤ (parseSlotTime ts.Start).1 ∧
      (parseSlotTime ts.Start).1 ≤ 2147483647)
    (_hminute : -2147483648 ≤ (parseSlotTime ts.Start).2 ∧
      (parseSlotTime ts.Start).2 ≤ 2147483647) :
    ∃ r, c.GetRemainingTime kyivLocation now name = .ok r ∧
      r.Status = StatusOn ∧ r.Probably = false ∧ r.ShutoffSlot = some ts ∧
      r.ShutoffAt = some (slotToKyivTime kyivLocation ts now) ∧
      r.Remaining = Time.Sub (slotToKyivTime kyivLocation ts now) now ∧
      (minDuration ≤ slotToKyivTime kyivLocation ts now - now →
        slotToKyivTime kyivLocation ts now - now ≤ maxDuration →
        r.Remaining = slotToKyivTime kyivLocation ts now - now) := by
  have hiff := buildEntryMap_isSome_iff (activeScheduleForNow schedules now) queue
  have hcur : buildEntryMap (activeScheduleForNow schedules now) queue
      (currentTimeSeriesID kyivLocation now) = none := by
    cases hm : buildEntryMap (activeScheduleForNow schedules now) queue
        (currentTimeSeriesID kyivLocation now) with
    | none => rfl
    | some e => exact absurd ((hiff _).mp (by simp [hm])) hnocur
  have hnext : nextOffSlotID (buildEntryMap (activeScheduleForNow schedules now) queue)
      (currentTimeSeriesID kyivLocation now) = some i := by
    cases hn : nextOffSlotID (buildEntryMap (activeScheduleForNow schedules now) queue)
        (currentTimeSeriesID kyivLocation now) with
    | none =>
      have h := nextOffSlotID_none _ _ hn i hi.1 hi.2
      have h' := (hiff i).mpr hev
      simp [h] at h'
    | some i' =>
      obtain ⟨h1, _, h3, h4⟩ := nextOffSlotID_some _ _ _ hn
      rcases lt_trichotomy i' i with hlt | heq | hgt
      · exact absurd ((hiff i').mp h3) (hmin i' h1 hlt)
      · rw [heq]
      · have h := h4 i hi.1 hgt
        have h' := (hiff i).mpr hev
        simp [h] at h'
  have hslot : buildTsMap timeSeries i = some ts := by
    rw [hgrid]
    exact buildTsMap_last pre post ts i hid hpost
  refine ⟨RemainingTime.mk queue StatusOn false
      (Time.Sub (slotToKyivTime kyivLocation ts now) now)
      (some (slotToKyivTime kyivLocation ts now)) (some ts), ?_, rfl, rfl, rfl, rfl, rfl, ?_⟩
  · unfold Client.GetRemainingTime
    simp only [hq, hts, hs, hcur, hnext, hslot]
  · intro h1 h2
    simp only [Time.Sub]
    rw [if_pos ⟨h1, h2⟩]

/-- Claim C12 (amended) at a concrete input: at 07:45 local (slot 16) the next event of the
sample schedule is at slot 17, whose slot is the seventeenth of the standard grid. -/
theorem GetRemainingTime_next_shutoff_witness :
    ∃ r, sampleClient.GetRemainingTime kyivWinter (sampleClock 7 45) "6.1" = .ok r ∧
      r.Status = StatusOn ∧ r.Probably = false ∧ r.ShutoffSlot = some (standardSlot 16) := by
  have h16 : currentTimeSeriesID kyivWinter (sampleClock 7 45) = 16 := by decide
  have hsel : activeScheduleForNow [sampleSchedule] (sampleClock 7 45)
      = some sampleSchedule := by decide
  obtain ⟨r, hr, h1, h2, h3, _⟩ :=
    GetRemainingTime_next_shutoff kyivWinter sampleClient (sampleClock 7 45) "6.1" sampleQueue
      standardGrid [sampleSchedule] 17 (standardGrid.take 16) (standardGrid.drop 17)
      (standardSlot 16) rfl rfl rfl
      (by
        rintro ⟨sched, hsched, e, he, _, hslot⟩
        rw [hsel] at hsched
        cases hsched
        rw [h16] at hslot
        simp [sampleSchedule, sampleEntry] at he
        subst he
        simp at hslot)
      (by rw [h16]; decide)
      ⟨sampleSchedule, hsel, sampleEntry 9001 17 OutageOff, by decide, by decide, by decide⟩
      (by
        intro j hj1 hj2
        rw [h16] at hj1
        omega)
      (by decide) (by decide) (by decide) (by decide) (by decide)
  exact ⟨r, hr, h1, h2, h3⟩

/-- Claim C15: with the standard grid (48 slots, slot 17 = 08:00:00-08:30:00), a single
schedule valid for the whole of the day with one event (queue "6.1", slot 17, OFF) and
`now` = 07:45 local: the slot index is 16, `GetCurrentInfo` for "6.1" returns state ON, and
`GetRemainingTime` returns state ON with the shutoff instant 08:00 local of that day, the
shutoff slot 17, and a remaining duration of exactly 15 minutes. -/
theorem scenario_before_outage :
    (standardGrid.map (fun ts => ts.ID) = (List.range 48).map (fun (i : Nat) => (i : Int) + 1) ∧
      standardGrid[16]? = some
        { ID := 17, Start := "08:00:00", End := "08:30:00", CreatedAt := none,
          UpdatedAt := none }) ∧
    (sampleClient.GetActiveSchedule = .ok [sampleSchedule] ∧
      sampleSchedule.From = sampleClock 0 0 ∧ sampleSchedule.To = sampleClock 24 0 ∧
      sampleSchedule.Series.map (fun e => (e.OutageQueueID, e.TimeSeriesID, e.Type_))
        = [(sampleQueue.ID, 17, OutageOff)]) ∧
    (Time.Hour kyivWinter (sampleClock 7 45) = 7 ∧
      Time.Minute kyivWinter (sampleClock 7 45) = 45 ∧
      currentTimeSeriesID kyivWinter (sampleClock 7 45) = 16) ∧
    (∃ info, sampleClient.GetCurrentInfo kyivWinter (sampleClock 7 45) "6.1" = .ok info ∧
      info.Status = StatusOn) ∧
    (∃ r, sampleClient.GetRemainingTime kyivWinter (sampleClock 7 45) "6.1" = .ok r ∧
      r.Status = StatusOn ∧ r.ShutoffAt = some (sampleClock 8 0) ∧
      Time.Hour kyivWinter (sampleClock 8 0) = 8 ∧
      Time.Minute kyivWinter (sampleClock 8 0) = 0 ∧
      Time.localDay kyivWinter (sampleClock 8 0) = Time.localDay kyivWinter (sampleClock 7 45) ∧
      (∃ slot, r.ShutoffSlot = some slot ∧ slot.ID = 17) ∧
      r.Remaining = 15 * 60 * 1000000000) :=
  ⟨⟨by decide, by decide⟩, ⟨rfl, by decide, by decide, by decide⟩,
    ⟨by decide, by decide, by decide⟩, ⟨_, rfl, rfl⟩,
    ⟨_, rfl, rfl, rfl, by decide, by decide, by decide, ⟨_, rfl, rfl⟩, rfl⟩⟩

/-- The character of a decimal digit, as `%d` meets it. -/
theorem digitChar_facts (d : Nat) (hd : d < 10) :
    Char.ofNat (48 + d) ≠ Char.ofNat 10 ∧ isSpace (Char.ofNat (48 + d)) = false ∧
    (Char.ofNat (48 + d) == '+') = false ∧ (Char.ofNat (48 + d) == '-') = false ∧
    isDecimalDigit (Char.ofNat (48 + d)) = true ∧
    (Char.ofNat (48 + d)).toNat - 48 = d := by
  interval_cases d <;> decide

/-- Scanning `%d` over two digits followed by a colon. -/
theorem scanInt_two_digits (a b : Nat) (ha : a < 10) (hb : b < 10) (rest : List Char) :
    scanInt (Char.ofNat (48 + a) :: Char.ofNat (48 + b) :: ':' :: rest)
      = some (((a * 10 + b : Nat) : Int), ':' :: rest) := by
  obtain ⟨a1, a2, a3, a4, a6, a7⟩ := digitChar_facts a ha
  obtain ⟨_, _, _, _, b6, b7⟩ := digitChar_facts b hb
  have hcolon : isDecimalDigit ':' = false := by decide
  have hrange : (-9223372036854775808 : Int) ≤ ((a * 10 + b : Nat) : Int) ∧
      ((a * 10 + b : Nat) : Int) ≤ 9223372036854775807 := by omega
  simp only [scanInt, skipSpace, a1, a2, a3, a4, if_false, Bool.or_self, Bool.false_eq_true,
    List.takeWhile_cons, a6, b6, hcolon, List.isEmpty_cons, parseInt,
    List.foldl_cons, List.foldl_nil, a7, b7, Nat.zero_mul, Nat.zero_add,
    List.dropWhile_cons, if_true, hrange, and_self]

/-- The hour and minute `parseSlotTime` reads from a text of the form `HH:MM:` followed by
anything, with two digits each. -/
theorem parseSlotTime_chars (text : String) (h m : Nat) (hh : h < 100) (hm : m < 100)
    (rest : List Char)
    (htext : text.toList = Char.ofNat (48 + h / 10) :: Char.ofNat (48 + h % 10) :: ':' ::
      Char.ofNat (48 + m / 10) :: Char.ofNat (48 + m % 10) :: ':' :: rest) :
    parseSlotTime text = ((h : Int), (m : Int)) := by
  unfold parseSlotTime
  rw [htext, scanInt_two_digits (h / 10) (h % 10) (by omega) (by omega)]
  simp only
  rw [scanInt_two_digits (m / 10) (m % 10) (by omega) (by omega)]
  simp only
  have e1 : h / 10 * 10 + h % 10 = h := by omega
  have e2 : m / 10 * 10 + m % 10 = m := by omega
  rw [e1, e2]

/-- The hour and minute of a zero-padded text `HH:MM:SS`. -/
theorem parseSlotTime_padded (h m s : Nat) (hh : h < 100) (hm : m < 100) :
    parseSlotTime (pad2 h ++ ":" ++ pad2 m ++ ":" ++ pad2 s) = ((h : Int), (m : Int)) := by
  apply parseSlotTime_chars _ h m hh hm
    [Char.ofNat (48 + s / 10), Char.ofNat (48 + s % 10)]
  simp [pad2, String.toList]

/-- The instant `time.Date` builds on the local day `D` when the zone offset is `o` both at
the instants of that day and at the clock readings of that day taken as UTC. -/
theorem Date_of_constant_offset (loc : Location) (o D hour min : Int)
    (hconst : ∀ u : Int, (D * 86400 ≤ u + o ∧ u + o < (D + 1) * 86400) ∨
      (D * 86400 ≤ u ∧ u < (D + 1) * 86400) → loc.offset u = o)
    (hrange : 0 ≤ hour * 3600 + min * 60 ∧ hour * 3600 + min * 60 < 86400) :
    Date loc D hour min = (D * 86400 + hour * 3600 + min * 60 - o) * 1000000000 := by
  have h1 : loc.offset (D * 86400 + hour * 3600 + min * 60) = o :=
    hconst _ (Or.inr (by omega))
  have h2 : loc.offset (D * 86400 + hour * 3600 + min * 60 - o) = o :=
    hconst _ (Or.inl (by omega))
  simp only [Date, h1, h2]

/-- The local day number of `now` when the zone offset is `o` on the local day `D` that
holds `now`. -/
theorem localSec_of_constant_offset (loc : Location) (now : Time) (o D : Int)
    (hD : D * 86400 ≤ now.unixSec + o ∧ now.unixSec + o < (D + 1) * 86400)
    (hconst : ∀ u : Int, (D * 86400 ≤ u + o ∧ u + o < (D + 1) * 86400) ∨
      (D * 86400 ≤ u ∧ u < (D + 1) * 86400) → loc.offset u = o) :
    Time.localSec loc now = now.unixSec + o ∧ Time.localDay loc now = D := by
  have h1 : loc.offset now.unixSec = o := hconst _ (Or.inl hD)
  have h2 : Time.localSec loc now = now.unixSec + o := by
    simp only [Time.localSec, h1]
  refine ⟨h2, ?_⟩
  simp only [Time.localDay, h2]
  omega

/-- Looking an id up in the map built from the grid finds a slot of the grid with that id,
when the grid has one. -/
theorem buildTsMap_mem (grid : List TimeSeries) (i : Int) (h : ∃ ts ∈ grid, ts.ID = i) :
    ∃ ts, buildTsMap grid i = some ts ∧ ts ∈ grid ∧ ts.ID = i := by
  have hfold : ∀ (l : List TimeSeries) (m : TimeSeriesMap),
      (l.foldl (fun (tsMap : TimeSeriesMap) t => tsMap.set t.ID t) m) i =
        match l.reverse.find? (fun t => decide (t.ID = i)) with
        | some t => some t
        | none => m i := by
    intro l
    induction l with
    | nil => intro m; rfl
    | cons x xs ih =>
      intro m
      rw [List.foldl_cons, ih, List.reverse_cons, List.find?_append]
      cases hrev : xs.reverse.find? (fun t => decide (t.ID = i)) with
      | some t => simp
      | none =>
        by_cases hx : x.ID = i
        · simp [List.find?_cons, hx, TimeSeriesMap.set]
        · have hx' : ¬ i = x.ID := fun e => hx e.symm
          simp [List.find?_cons, hx, hx', TimeSeriesMap.set]
  obtain ⟨ts, hts, hid⟩ := h
  unfold buildTsMap
  rw [hfold]
  cases hrev : grid.reverse.find? (fun t => decide (t.ID = i)) with
  | none =>
    have hno := List.find?_eq_none.mp hrev ts (List.mem_reverse.mpr hts)
    simp [hid] at hno
  | some t =>
    have hp := List.find?_some hrev
    have hmem := List.mem_of_find?_eq_some hrev
    exact ⟨t, rfl, List.mem_reverse.mp hmem, by simpa using hp⟩

/-- The hour and minute `parseSlotTime` reads from the text `HH:MM:00` of a time of day. -/
theorem parseSlotTime_clockText (minutes : Nat) (h : minutes < 1440) :
    parseSlotTime (clockText minutes) = (((minutes / 60 : Nat) : Int), ((minutes % 60 : Nat) : Int)) := by
  apply parseSlotTime_chars _ (minutes / 60) (minutes % 60) (by omega) (by omega) ['0', '0']
  simp [clockText, pad2, String.toList]

/-- Claim C13: for a resolved queue, any schedule list and any instant, with a standard
grid (48 slots, ids 1..48, slot `k` starting `(k-1)*30` minutes after local midnight,
written `HH:MM:SS`; in any order, whatever the other fields) and on a civil day without
clock changes (the zone offset is `o` at every instant of the local day `D` of `now`, and
at the clock readings of that day taken as UTC, where `time.Date` looks first):
`GetRemainingTime` returns a result, and whenever it reports a shutoff instant, that
instant is not before `now` and the remaining duration is the instant minus `now`, which
is non-negative. -/
theorem GetRemainingTime_nonneg (kyivLocation : Location) (c : Client) (now : Time)
    (name : String) (queue : OutageQueue) (grid : List TimeSeries)
    (schedules : List ActiveSchedule) (o D : Int)
    (hq : c.findQueue name = .ok queue) (hts : c.GetTimeSeries = .ok grid)
    (hs : c.GetActiveSchedule = .ok schedules)
    (hgrid : (grid.map (fun ts => (ts.ID, ts.Start))).Perm
      ((List.range 48).map (fun (k : Nat) => ((k : Int) + 1, clockText (k * 30)))))
    (hD : D * 86400 ≤ now.unixSec + o ∧ now.unixSec + o < (D + 1) * 86400)
    (hconst : ∀ u : Int, (D * 86400 ≤ u + o ∧ u + o < (D + 1) * 86400) ∨
      (D * 86400 ≤ u ∧ u < (D + 1) * 86400) → kyivLocation.offset u = o) :
    (∃ r, c.GetRemainingTime kyivLocation now name = .ok r) ∧
    ∀ r t, c.GetRemainingTime kyivLocation now name = .ok r → r.ShutoffAt = some t →
      now ≤ t ∧ r.Remaining = t - now ∧ 0 ≤ r.Remaining := by
  obtain ⟨hsec, hday⟩ := localSec_of_constant_offset kyivLocation now o D hD hconst
  have hbounds := slotID_in_grid kyivLocation now
  unfold Client.GetRemainingTime
  simp only [hq, hts, hs]
  cases hcur : buildEntryMap (activeScheduleForNow schedules now) queue
      (currentTimeSeriesID kyivLocation now) with
  | some entry =>
    refine ⟨⟨_, rfl⟩, ?_⟩
    intro r t hr ht
    cases hr
    simp at ht
  | none =>
    simp only
    cases hnext : nextOffSlotID (buildEntryMap (activeScheduleForNow schedules now) queue)
        (currentTimeSeriesID kyivLocation now) with
    | none =>
      refine ⟨⟨_, rfl⟩, ?_⟩
      intro r t hr ht
      cases hr
      simp at ht
    | some i =>
      refine ⟨⟨_, rfl⟩, ?_⟩
      intro r t hr ht
      cases hr
      simp only [Option.some.injEq] at ht
      subst ht
      obtain ⟨hci, hi48, _, _⟩ := nextOffSlotID_some _ _ _ hnext
      -- the grid has a slot with id `i`, and the one found starts at `(i-1)*30` minutes
      have hstd : (i, clockText ((i - 1).toNat * 30)) ∈
          (List.range 48).map (fun (k : Nat) => ((k : Int) + 1, clockText (k * 30))) := by
        refine List.mem_map.mpr ⟨(i - 1).toNat, List.mem_range.mpr (by omega), ?_⟩
        have e : (((i - 1).toNat : Nat) : Int) + 1 = i := by omega
        simp only [e]
      obtain ⟨ts0, hts0, hpair0⟩ := List.mem_map.mp (hgrid.mem_iff.mpr hstd)
      have hid0 : ts0.ID = i := congrArg Prod.fst hpair0
      obtain ⟨ts, hlook, hmem, hid⟩ := buildTsMap_mem grid i ⟨ts0, hts0, hid0⟩
      have hin : (ts.ID, ts.Start) ∈ grid.map (fun ts => (ts.ID, ts.Start)) :=
        List.mem_map.mpr ⟨ts, hmem, rfl⟩
      obtain ⟨k, hk, hpair⟩ := List.mem_map.mp (hgrid.mem_iff.mp hin)
      have hk48 : k < 48 := List.mem_range.mp hk
      have hkid : (k : Int) + 1 = ts.ID := congrArg Prod.fst hpair
      have hstart : clockText (k * 30) = ts.Start := congrArg Prod.snd hpair
      have hparse : parseSlotTime ts.Start
          = (((k * 30 / 60 : Nat) : Int), ((k * 30 % 60 : Nat) : Int)) := by
        rw [← hstart]
        exact parseSlotTime_clockText (k * 30) (by omega)
      have hdate : slotToKyivTime kyivLocation ts now
          = (D * 86400 + ((k * 30 / 60 : Nat) : Int) * 3600
              + ((k * 30 % 60 : Nat) : Int) * 60 - o) * 1000000000 := by
        unfold slotToKyivTime
        simp only [hparse, hday]
        exact Date_of_constant_offset kyivLocation o D _ _ hconst (by omega)
      simp only [hlook]
      rw [hdate]
      have hslot : currentTimeSeriesID kyivLocation now * 1800 >
          (now.unixSec + o) % 86400 := by
        unfold currentTimeSeriesID Time.Hour Time.Minute
        rw [hsec]
        generalize now.unixSec + o = x
        simp only
        split <;> omega
      have hnow : now.unixSec * 1000000000 ≤ now ∧
          now < (now.unixSec + 1) * 1000000000 := by
        unfold Time.unixSec
        have hx : ∀ x : Int, x / 1000000000 * 1000000000 ≤ x ∧
            x < (x / 1000000000 + 1) * 1000000000 := by
          intro x
          omega
        exact hx now
      generalize now.unixSec = n at hD hslot hnow
      generalize currentTimeSeriesID kyivLocation now = cur at hci hslot hbounds
      have hx : ∀ (nw : Int), n * 1000000000 ≤ nw ∧ nw < (n + 1) * 1000000000 →
          nw ≤ (D * 86400 + ((k * 30 / 60 : Nat) : Int) * 3600
              + ((k * 30 % 60 : Nat) : Int) * 60 - o) * 1000000000 ∧
          (D * 86400 + ((k * 30 / 60 : Nat) : Int) * 3600
              + ((k * 30 % 60 : Nat) : Int) * 60 - o) * 1000000000 - nw
            ≤ 86400 * 1000000000 := by
        intro nw hnw
        omega
      obtain ⟨hle, hub⟩ := hx now hnow
      have hsub : Time.Sub
          ((D * 86400 + ((k * 30 / 60 : Nat) : Int) * 3600
              + ((k * 30 % 60 : Nat) : Int) * 60 - o) * 1000000000) now
          = (D * 86400 + ((k * 30 / 60 : Nat) : Int) * 3600
              + ((k * 30 % 60 : Nat) : Int) * 60 - o) * 1000000000 - now := by
        unfold Time.Sub minDuration maxDuration
        rw [if_pos]
        constructor
        · have : (0 : Int) ≤
              (D * 86400 + ((k * 30 / 60 : Nat) : Int) * 3600
                + ((k * 30 % 60 : Nat) : Int) * 60 - o) * 1000000000 - now :=
            sub_nonneg.mpr hle
          exact le_trans (by decide) this
        · exact le_trans hub (by decide)
      refine ⟨hle, hsub, ?_⟩
      simp only [hsub]
      exact sub_nonneg.mpr hle

/-- Claim C13 at a concrete input: at 07:45 local on the sample day, two hours east of UTC
throughout, the shutoff instant 08:00 is reported and is not before `now`. -/
theorem GetRemainingTime_nonneg_witness :
    ∃ r t, sampleClient.GetRemainingTime kyivWinter (sampleClock 7 45) "6.1" = .ok r ∧
      r.ShutoffAt = some t ∧ sampleClock 7 45 ≤ t ∧ r.Remaining = t - sampleClock 7 45 ∧
      0 ≤ r.Remaining := by
  have hall := GetRemainingTime_nonneg kyivWinter sampleClient (sampleClock 7 45) "6.1"
    sampleQueue standardGrid [sampleSchedule] 7200 19737 rfl rfl rfl
    (by
      have e : standardGrid.map (fun ts => (ts.ID, ts.Start)) =
          (List.range 48).map (fun (k : Nat) => ((k : Int) + 1, clockText (k * 30))) := by
        decide
      rw [e])
    (by decide) (fun _ _ => rfl)
  obtain ⟨r, hr⟩ := hall.1
  have hat : r.ShutoffAt = some (sampleClock 8 0) := by
    have hr' : sampleClient.GetRemainingTime kyivWinter (sampleClock 7 45) "6.1" =
        .ok (RemainingTime.mk sampleQueue StatusOn false (15 * 60 * 1000000000)
          (some (sampleClock 8 0)) (some (standardSlot 16))) := rfl
    rw [hr'] at hr
    cases hr
    rfl
  exact ⟨r, sampleClock 8 0, hr, hat, hall.2 r _ hr hat⟩

/-- Claim C17 fails as stated: in Kyiv on 31 March 2024 the local times from 03:00 to 03:59
do not exist, and for the slot starting at `03:30:00` `slotToKyivTime` returns an instant
whose local time of day is 04:30. -/
theorem slotToKyivTime_gap_counterexample :
    (standardSlot 7).Start = "03:30:00" ∧
    Time.Hour kyiv2024 (slotToKyivTime kyiv2024 (standardSlot 7) springForwardNoon) = 4 ∧
    Time.Minute kyiv2024 (slotToKyivTime kyiv2024 (standardSlot 7) springForwardNoon) = 30 := by
  decide

/-- Claim C17, amended: for every reference instant and every slot whose start text is the
zero-padded `HH:MM:SS` with `HH` in 0..23 and `MM` in 0..59, provided the local time
`HH:MM:00` exists on the local day of the reference instant, `slotToKyivTime` returns the
instant on that local day whose local time of day is `HH:MM:00`, with no nanoseconds; the
seconds of the text are not used. Here the clock reading `HH:MM:00` of that day is counted
in seconds as `U = day * 86400 + HH * 3600 + MM * 60`; within a day around it the zone has
at most one clock change, from the offset `a` before the instant `S` to the offset `b` from
`S` on (no change when `a = b`); and the reading exists when it is not one the change
skips, that is, not `S + a <= U < S + b`. A reading that occurs twice is fine. -/
theorem slotToKyivTime_civil (kyivLocation : Location) (now : Time) (slot : TimeSeries)
    (h m s : Nat) (S a b : Int) (hh : h < 24) (hm : m < 60) (_hs : s < 60)
    (htext : slot.Start = pad2 h ++ ":" ++ pad2 m ++ ":" ++ pad2 s)
    (ha : -86400 ≤ a ∧ a ≤ 86400) (hb : -86400 ≤ b ∧ b ≤ 86400)
    (hzone : ∀ u : Int,
      Time.localDay kyivLocation now * 86400 + (h : Int) * 3600 + (m : Int) * 60 - 86400 ≤ u →
      u ≤ Time.localDay kyivLocation now * 86400 + (h : Int) * 3600 + (m : Int) * 60 + 86400 →
      kyivLocation.offset u = if u < S then a else b)
    (hexists : ¬ (S + a ≤ Time.localDay kyivLocation now * 86400 + (h : Int) * 3600
        + (m : Int) * 60 ∧
      Time.localDay kyivLocation now * 86400 + (h : Int) * 3600 + (m : Int) * 60 < S + b)) :
    Time.localDay kyivLocation (slotToKyivTime kyivLocation slot now)
      = Time.localDay kyivLocation now ∧
    Time.Hour kyivLocation (slotToKyivTime kyivLocation slot now) = h ∧
    Time.Minute kyivLocation (slotToKyivTime kyivLocation slot now) = m ∧
    Time.Second kyivLocation (slotToKyivTime kyivLocation slot now) = 0 ∧
    slotToKyivTime kyivLocation slot now % 1000000000 = 0 := by
  have hparse : parseSlotTime slot.Start = ((h : Int), (m : Int)) := by
    rw [htext]
    exact parseSlotTime_padded h m s (by omega) (by omega)
  have hdate : slotToKyivTime kyivLocation slot now =
      (Time.localDay kyivLocation now * 86400 + (h : Int) * 3600 + (m : Int) * 60
        - kyivLocation.offset
          (Time.localDay kyivLocation now * 86400 + (h : Int) * 3600 + (m : Int) * 60
            - kyivLocation.offset
              (Time.localDay kyivLocation now * 86400 + (h : Int) * 3600 + (m : Int) * 60)))
        * 1000000000 := by
    unfold slotToKyivTime
    simp only [hparse, Date]
  rw [hdate]
  generalize Time.localDay kyivLocation now = D at hzone hexists ⊢
  have hU := hzone (D * 86400 + (h : Int) * 3600 + (m : Int) * 60) (by omega) (by omega)
  have hUa := hzone (D * 86400 + (h : Int) * 3600 + (m : Int) * 60 - a) (by omega) (by omega)
  have hUb := hzone (D * 86400 + (h : Int) * 3600 + (m : Int) * 60 - b) (by omega) (by omega)
  -- the instant `T` that `Date` returns reads `U` on the local clock
  have hkey : ∃ T : Int,
      D * 86400 + (h : Int) * 3600 + (m : Int) * 60
        - kyivLocation.offset (D * 86400 + (h : Int) * 3600 + (m : Int) * 60
          - kyivLocation.offset (D * 86400 + (h : Int) * 3600 + (m : Int) * 60)) = T ∧
      T + kyivLocation.offset T = D * 86400 + (h : Int) * 3600 + (m : Int) * 60 := by
    by_cases h1 : D * 86400 + (h : Int) * 3600 + (m : Int) * 60 < S
    · rw [if_pos h1] at hU
      rw [hU]
      by_cases h2 : D * 86400 + (h : Int) * 3600 + (m : Int) * 60 - a < S
      · rw [if_pos h2] at hUa
        rw [hUa]
        exact ⟨_, rfl, by rw [hUa]; omega⟩
      · rw [if_neg h2] at hUa
        rw [hUa]
        have h3 : ¬ D * 86400 + (h : Int) * 3600 + (m : Int) * 60 - b < S := by omega
        rw [if_neg h3] at hUb
        exact ⟨_, rfl, by rw [hUb]; omega⟩
    · rw [if_neg h1] at hU
      rw [hU]
      by_cases h2 : D * 86400 + (h : Int) * 3600 + (m : Int) * 60 - b < S
      · rw [if_pos h2] at hUb
        rw [hUb]
        have h3 : D * 86400 + (h : Int) * 3600 + (m : Int) * 60 - a < S := by omega
        rw [if_pos h3] at hUa
        exact ⟨_, rfl, by rw [hUa]; omega⟩
      · rw [if_neg h2] at hUb
        rw [hUb]
        exact ⟨_, rfl, by rw [hUb]; omega⟩
  obtain ⟨T, hT, hlocalT⟩ := hkey
  rw [hT]
  have hunix : Time.unixSec (T * 1000000000) = T := by
    unfold Time.unixSec
    omega
  have hlocal : Time.localSec kyivLocation (T * 1000000000)
      = D * 86400 + (h : Int) * 3600 + (m : Int) * 60 := by
    simp only [Time.localSec, hunix]
    exact hlocalT
  simp only [Time.localDay, Time.Hour, Time.Minute, Time.Second, hlocal]
  exact ⟨by omega, by omega, by omega, by omega, Int.mul_emod_left _ _⟩

/-- Claim C17 (amended) at a concrete input: in Kyiv on 27 October 2024 the clocks go back
from 04:00 to 03:00, so 03:30 occurs twice; the slot starting at `03:30:00` is placed at an
instant of that day whose local time is 03:30:00. -/
theorem slotToKyivTime_civil_witness :
    Time.localDay kyiv2024 (slotToKyivTime kyiv2024 (standardSlot 7) fallBackNoon)
      = Time.localDay kyiv2024 fallBackNoon ∧
    Time.Hour kyiv2024 (slotToKyivTime kyiv2024 (standardSlot 7) fallBackNoon) = (3 : Nat) ∧
    Time.Minute kyiv2024 (slotToKyivTime kyiv2024 (standardSlot 7) fallBackNoon) = (30 : Nat) ∧
    Time.Second kyiv2024 (slotToKyivTime kyiv2024 (standardSlot 7) fallBackNoon) = 0 ∧
    slotToKyivTime kyiv2024 (standardSlot 7) fallBackNoon % 1000000000 = 0 :=
  slotToKyivTime_civil kyiv2024 fallBackNoon (standardSlot 7) 3 30 0 1729990800 10800 7200
    (by decide) (by decide) (by decide) (by decide) (by decide) (by decide)
    (by
      have hD : Time.localDay kyiv2024 fallBackNoon = 20023 := by decide
      intro u h1 h2
      rw [hD] at h1 h2
      simp only [kyiv2024]
      by_cases hu : u < 1729990800
      · rw [if_pos hu, if_pos ⟨by omega, hu⟩]
      · rw [if_neg hu, if_neg (fun hc => hu hc.2)])
    (by decide)

/-- With three catalogs fetched, `findQueue` is the search for the name through the city,
district and sub catalogs laid end to end. -/
theorem findQueue_eq_find (c : Client) (name : String) (city district sub : List OutageQueue)
    (hcity : c.GetOutageQueues QueueTypeCity = .ok city)
    (hdistrict : c.GetOutageQueues QueueTypeDistrict = .ok district)
    (hsub : c.GetOutageQueues QueueTypeSub = .ok sub) :
    c.findQueue name =
      match (city ++ district ++ sub).find? (fun q => decide (q.Name = name)) with
      | some q => .ok q
      | none => .error (.queueNotFound name) := by
  unfold Client.findQueue
  simp only [Client.findQueueIn, hcity, hdistrict, hsub, List.find?_append]
  cases city.find? (fun q => decide (q.Name = name)) with
  | some q => rfl
  | none =>
    cases district.find? (fun q => decide (q.Name = name)) with
    | some q => rfl
    | none =>
      cases sub.find? (fun q => decide (q.Name = name)) with
      | some q => rfl
      | none => rfl

/-- Claim C16: when the fetches of the three catalogs succeed, `findQueue` returns the first
queue with exactly the given name, searching the city catalog, then the district catalog,
then the sub catalog, each in list order; it fails with the not-found error carrying the
name exactly when no queue of the three catalogs has that name; so a name present only in
the district catalog is found. -/
theorem findQueue_spec (c : Client) (name : String) (city district sub : List OutageQueue)
    (hcity : c.GetOutageQueues QueueTypeCity = .ok city)
    (hdistrict : c.GetOutageQueues QueueTypeDistrict = .ok district)
    (hsub : c.GetOutageQueues QueueTypeSub = .ok sub) :
    (∀ (pre post : List OutageQueue) (q : OutageQueue),
      city ++ district ++ sub = pre ++ q :: post → q.Name = name →
      (∀ x ∈ pre, x.Name ≠ name) → c.findQueue name = .ok q) ∧
    (c.findQueue name = .error (.queueNotFound name) ↔
      ∀ q ∈ city ++ district ++ sub, q.Name ≠ name) ∧
    ((∀ q ∈ city, q.Name ≠ name) → (∃ q ∈ district, q.Name = name) →
      ∃ q ∈ district, q.Name = name ∧ c.findQueue name = .ok q) := by
  have hfind := findQueue_eq_find c name city district sub hcity hdistrict hsub
  refine ⟨?_, ?_, ?_⟩
  · intro pre post q hsplit hname hpre
    have hfirst := find_first_of_split (fun q => decide (q.Name = name)) pre post q
      (by simpa using hname) (fun x hx hp => hpre x hx (by simpa using hp))
    rw [hfind, hsplit, hfirst]
  · rw [hfind]
    cases hres : (city ++ district ++ sub).find? (fun q => decide (q.Name = name)) with
    | some q =>
      have hp := List.find?_some hres
      have hmem := List.mem_of_find?_eq_some hres
      simp only [false_iff, reduceCtorEq]
      intro hall
      exact hall q hmem (by simpa using hp)
    | none =>
      simp only [true_iff]
      intro q hq hname
      exact List.find?_eq_none.mp hres q hq (by simpa using hname)
  · intro hnocity hex
    have hcityNone : city.find? (fun q => decide (q.Name = name)) = none :=
      List.find?_eq_none.mpr (fun x hx hp => hnocity x hx (by simpa using hp))
    cases hres : district.find? (fun q => decide (q.Name = name)) with
    | none =>
      obtain ⟨q, hq, hname⟩ := hex
      exact absurd (by simpa using hname) (List.find?_eq_none.mp hres q hq)
    | some q =>
      have hp := List.find?_some hres
      have hmem := List.mem_of_find?_eq_some hres
      refine ⟨q, hmem, by simpa using hp, ?_⟩
      rw [hfind]
      simp only [List.find?_append, hcityNone, hres, Option.none_or]
      rfl

/-- Claim C16 at a concrete input: the name "D-3" is only in the district catalog, and
the queue is found there. -/
theorem findQueue_spec_witness :
    ∃ q ∈ [districtQueue], q.Name = "D-3" ∧ catalogClient.findQueue "D-3" = .ok q :=
  (findQueue_spec catalogClient "D-3" [sampleQueue] [districtQueue] [subQueue] rfl rfl rfl).2.2
    (by decide) ⟨districtQueue, by decide, by decide⟩

/-- Claim C18 at the failing input: the schedule holds, for the queue and slot 17, an `OFF`
event followed by a `PROBABLY_OFF` event, and the grid holds the id 17 once. At 08:15
local (slot 17) `GetCurrentInfo` reports (OFF, false), from the first event, while the row
of slot 17 of `GetDailyInfo` and `GetRemainingTime` report (OFF, true), from the last. -/
theorem lookups_disagree_on_duplicate_events :
    currentTimeSeriesID kyivWinter (sampleClock 8 15) = 17 ∧
    (standardGrid.filter (fun ts => decide (ts.ID = 17))).length = 1 ∧
    (∃ info, duplicateEventClient.GetCurrentInfo kyivWinter (sampleClock 8 15) "6.1" = .ok info ∧
      (info.Status, info.Probably) = (StatusOff, false)) ∧
    (∃ daily, duplicateEventClient.GetDailyInfo (sampleClock 8 15) "6.1" = .ok daily ∧
      (daily.Slots.filter (fun row => decide (row.TimeSlot.ID = 17))).map
        (fun row => (row.Status, row.Probably)) = [(StatusOff, true)]) ∧
    (∃ r, duplicateEventClient.GetRemainingTime kyivWinter (sampleClock 8 15) "6.1" = .ok r ∧
      (r.Status, r.Probably) = (StatusOff, true)) :=
  ⟨by decide, by decide, ⟨_, rfl, rfl⟩, ⟨_, rfl, by decide⟩, ⟨_, rfl, rfl⟩⟩

/-- Claim C19: when at least one schedule of the list satisfies `from <= now < to`,
`activeScheduleForNow` returns the one at the smallest index: the schedule at index `i`
contains `now` and none at a smaller index does, so the result is that schedule, not a
later one that contains `now` and not the last element of the list (unless it is the
same). -/
theorem activeScheduleForNow_first (schedules : List ActiveSchedule) (now : Time) (i : Nat)
    (s : ActiveSchedule) (hi : schedules[i]? = some s) (hin : s.From ≤ now ∧ now < s.To)
    (hfirst : ∀ (j : Nat) (t : ActiveSchedule), j < i → schedules[j]? = some t →
      ¬ (t.From ≤ now ∧ now < t.To)) :
    activeScheduleForNow schedules now = some s := by
  unfold activeScheduleForNow
  cases hfind : schedules.find? (fun s => !Time.Before now s.From && Time.Before now s.To) with
  | none =>
    have hnone := List.find?_eq_none.mp hfind s (List.mem_iff_getElem?.mpr ⟨i, hi⟩)
    exact absurd ((inRange_iff now s).mpr hin) hnone
  | some t =>
    obtain ⟨hp, pre, post, hsplit, hpre⟩ := List.find?_eq_some.mp hfind
    have hlen : i < schedules.length := (List.getElem?_eq_some.mp hi).1
    rcases lt_trichotomy i pre.length with hlt | heq | hgt
    · have hs : pre[i]? = some s := by
        rw [hsplit, List.getElem?_append_left hlt] at hi
        exact hi
      have hmem : s ∈ pre := List.mem_iff_getElem?.mpr ⟨i, hs⟩
      have := hpre s hmem
      rw [(inRange_iff now s).mpr hin] at this
      simp at this
    · have ht : schedules[i]? = some t := by
        rw [hsplit, heq, List.getElem?_append_right (le_refl _)]
        simp
      rw [hi] at ht
      simpa using ht.symm
    · have ht : schedules[pre.length]? = some t := by
        rw [hsplit, List.getElem?_append_right (le_refl _)]
        simp
      exact absurd ((inRange_iff now t).mp hp) (hfirst pre.length t hgt ht)

/-- Claim C19 at a concrete input: at `now = 150` the second and the third schedule both
contain `now` and the fourth, the last, does not; the second is returned. -/
theorem activeScheduleForNow_first_witness :
    activeScheduleForNow
      [emptySchedule 1 0 100, emptySchedule 2 100 200, emptySchedule 3 120 300,
        emptySchedule 4 300 400] 150 = some (emptySchedule 2 100 200) :=
  activeScheduleForNow_first _ 150 1 (emptySchedule 2 100 200) (by decide) (by decide)
    (by
      intro j t hj ht
      match j, hj, ht with
      | 0, _, ht => simp [emptySchedule] at ht; subst ht; simp)

/-- Claim C20: for a resolved queue and a fetched grid, when the list holds exactly one
schedule, `scheduleForTomorrow` returns that schedule, as `activeScheduleForNow` does, and
`GetTomorrowDailyInfo` returns the same table as `GetDailyInfo`; more generally the two
tables are equal whenever the two selectors return the same schedule. -/
theorem tomorrow_table_eq_daily (c : Client) (now : Time) (name : String)
    (queue : OutageQueue) (timeSeries : List TimeSeries) (schedules : List ActiveSchedule)
    (hq : c.findQueue name = .ok queue) (hts : c.GetTimeSeries = .ok timeSeries)
    (hs : c.GetActiveSchedule = .ok schedules) :
    (∀ s, schedules = [s] →
      scheduleForTomorrow schedules now = some s ∧
      activeScheduleForNow schedules now = some s ∧
      ∃ daily, c.GetDailyInfo now name = .ok daily ∧
        c.GetTomorrowDailyInfo now name = .ok daily) ∧
    (scheduleForTomorrow schedules now = activeScheduleForNow schedules now →
      ∃ daily, c.GetDailyInfo now name = .ok daily ∧
        c.GetTomorrowDailyInfo now name = .ok daily) := by
  have hgen : scheduleForTomorrow schedules now = activeScheduleForNow schedules now →
      ∃ daily, c.GetDailyInfo now name = .ok daily ∧
        c.GetTomorrowDailyInfo now name = .ok daily := by
    intro heq
    refine ⟨DailyInfo.mk queue
      (dailySlots (buildEntryMap (activeScheduleForNow schedules now) queue) timeSeries), ?_, ?_⟩
    · simp [Client.GetDailyInfo, hq, hts, hs]
    · simp [Client.GetTomorrowDailyInfo, hq, hts, hs, heq]
  refine ⟨?_, hgen⟩
  intro s hone
  have hact : activeScheduleForNow schedules now = some s := by
    rw [hone]
    unfold activeScheduleForNow
    by_cases hp : (!Time.Before now s.From && Time.Before now s.To) = true
    · simp [List.find?_cons, hp]
    · simp [List.find?_cons, hp]
  have htom : scheduleForTomorrow schedules now = some s := by
    unfold scheduleForTomorrow
    simp only [hact]
    rw [hone]
    simp [List.find?_cons, isCurrent]
  exact ⟨htom, hact, hgen (htom.trans hact.symm)⟩

/-- Claim C20 at a concrete input: the sample service publishes one schedule, and the two
tables are the same. -/
theorem tomorrow_table_eq_daily_witness :
    ∃ daily, sampleClient.GetDailyInfo (sampleClock 7 45) "6.1" = .ok daily ∧
      sampleClient.GetTomorrowDailyInfo (sampleClock 7 45) "6.1" = .ok daily :=
  ((tomorrow_table_eq_daily sampleClient (sampleClock 7 45) "6.1" sampleQueue standardGrid
    [sampleSchedule] rfl rfl rfl).1 sampleSchedule rfl).2.2

end Oblenergo
